import Mathlib

/-!
Shallow embedding of the expression-compiler and relational-operator core of
the DataTreehouse/query_processing crate (src/expressions.rs and
src/graph_patterns.rs), together with models of the boundary pieces the crate
imports (the `representation` crate's multitype reconciliation routines and
the columnar engine's per-row expression evaluation), which are specified in
spec.md sections 3-6 but whose code is not part of this crate's sources.
-/

namespace QP

/-- RDF base term type, `BaseRDFNodeType` of the representation crate
(spec section 3): `IRI`, `BlankNode`, or `Literal(datatype-identifier)`,
totally ordered by a canonical sort key. -/
inductive BaseRDFNodeType where
  | IRI
  | BlankNode
  | Literal (datatype : String)
deriving DecidableEq, Repr

/-- Canonical sort key for the total order on base types (spec section 3:
"Totally ordered (canonical sort key) for deterministic set operations").
Strings are compared by their character lists. -/
def BaseRDFNodeType.sortKey : BaseRDFNodeType → List Nat
  | .IRI => [0]
  | .BlankNode => [1]
  | .Literal dt => 2 :: dt.data.map Char.toNat

/-- Boolean total order on base types, via the canonical sort key. -/
def btLe (a b : BaseRDFNodeType) : Bool :=
  decide (a.sortKey ≤ b.sortKey)

/-- Column type `RDFNodeType` (spec section 3): a single base type or a
`MultiType` over a sorted list of base types. -/
inductive RDFNodeType where
  | IRI
  | BlankNode
  | Literal (datatype : String)
  | MultiType (types : List BaseRDFNodeType)
deriving DecidableEq, Repr

/-- `BaseRDFNodeType::from_rdf_node_type`: base view of a non-multi column
type (never called on `MultiType` in the embedded code paths). -/
def BaseRDFNodeType.from_rdf_node_type : RDFNodeType → BaseRDFNodeType
  | .IRI => .IRI
  | .BlankNode => .BlankNode
  | .Literal dt => .Literal dt
  | .MultiType _ => .IRI

/-- Embeds a base type back into `RDFNodeType`. -/
def BaseRDFNodeType.as_rdf_node_type : BaseRDFNodeType → RDFNodeType
  | .IRI => .IRI
  | .BlankNode => .BlankNode
  | .Literal dt => .Literal dt

/-- Type map of a Typed Solution Relation: mapping from live column name to
`RDFNodeType` (a Rust `HashMap<String, RDFNodeType>`, embedded as an
association list with unique keys). -/
abbrev TypeMap := List (String × RDFNodeType)

/-- HashMap lookup. -/
def TypeMap.get : TypeMap → String → Option RDFNodeType
  | [], _ => none
  | (k', v) :: rest, k => if k' = k then some v else TypeMap.get rest k

/-- HashMap insert (replaces an existing entry for the key). -/
def TypeMap.insert : TypeMap → String → RDFNodeType → TypeMap
  | [], k, v => [(k, v)]
  | (k', v') :: rest, k, v =>
    if k' = k then (k, v) :: rest else (k', v') :: TypeMap.insert rest k v

/-- HashMap remove. -/
def TypeMap.remove : TypeMap → String → TypeMap
  | [], _ => []
  | (k', v') :: rest, k =>
    if k' = k then rest else (k', v') :: TypeMap.remove rest k

/-- Key list of the map. -/
def TypeMap.keys (m : TypeMap) : List String := m.map (·.1)

/-- Key membership test. -/
def TypeMap.containsKey (m : TypeMap) (k : String) : Bool :=
  m.any (fun p => p.1 = k)

/-- Scalar (single concrete type) physical value of one cell of the columnar
engine: null, boolean, integer, floating-point (embedded exactly as a
rational) or string. -/
inductive SVal where
  | null
  | boolean (b : Bool)
  | int (i : Int)
  | double (q : Rat)
  | str (s : String)
deriving DecidableEq, Repr

/-- Physical cell of a column: a scalar value, or a multitype struct holding
one scalar sub-field per constituent base type (spec section 9: a `MultiType`
value is N parallel nullable sub-columns, at most one non-null per row). -/
inductive Cell where
  | scalar (v : SVal)
  | multi (fields : List (BaseRDFNodeType × SVal))
deriving DecidableEq, Repr

/-- One row of the working relation: an association of column names to cells
(spec glossary: "Solution / binding"). A name not present behaves as null. -/
abbrev Row := List (String × Cell)

/-- Value of a named column in a row; absent columns read as null. -/
def Row.get : Row → String → Cell
  | [], _ => .scalar .null
  | (k', v) :: rest, k => if k' = k then v else Row.get rest k

/-- Sets a named column of a row, replacing an existing entry or appending. -/
def Row.set : Row → String → Cell → Row
  | [], k, v => [(k, v)]
  | (k', v') :: rest, k, v =>
    if k' = k then (k, v) :: rest else (k', v') :: Row.set rest k v

/-- Removes the named columns from a row. -/
def Row.dropKeys : Row → List String → Row
  | [], _ => []
  | (k', v') :: rest, ks =>
    if ks.contains k' then Row.dropKeys rest ks
    else (k', v') :: Row.dropKeys rest ks

/-- A (lazily built, here fully materialized) tabular relation: a schema, and
rows that carry the cells for the schema's columns. -/
structure DF where
  cols : List String
  rows : List Row
deriving DecidableEq, Repr

/-- Polars binary operators appearing in the embedded code
(`polars::prelude::Operator`; `Modulus`, `NotEq` and `Xor` are among the
variants of the enum that the source's `match` does not name). -/
inductive Operator where
  | Eq
  | NotEq
  | Lt
  | LtEq
  | Gt
  | GtEq
  | Plus
  | Minus
  | Multiply
  | Divide
  | Modulus
  | And
  | Or
  | Xor
deriving DecidableEq, Repr

/-- Polars column expressions used by the source (`polars::prelude::Expr`).
`Fn` stands for the engine functions the compiler attaches
(`dt().year()`, `abs()`, casts, string predicates, ...): the claims under
verification do not depend on their per-row values, so they are kept
uninterpreted. -/
inductive Expr where
  | Col (name : String)
  | Literal (v : SVal)
  | BinaryExpr (left : Expr) (op : Operator) (right : Expr)
  | IsNull (e : Expr)
  | NotExpr (e : Expr)
  | Ternary (predicate truthy falsy : Expr)
  | Fn (name : String) (args : List Expr)

/-- Kleene disjunction of nullable booleans, the engine's `|`. -/
def kleeneOr : Cell → Cell → Cell
  | .scalar (.boolean true), _ => .scalar (.boolean true)
  | _, .scalar (.boolean true) => .scalar (.boolean true)
  | .scalar (.boolean false), .scalar (.boolean false) => .scalar (.boolean false)
  | _, _ => .scalar .null

/-- Kleene conjunction of nullable booleans, the engine's `&`. -/
def kleeneAnd : Cell → Cell → Cell
  | .scalar (.boolean false), _ => .scalar (.boolean false)
  | _, .scalar (.boolean false) => .scalar (.boolean false)
  | .scalar (.boolean true), .scalar (.boolean true) => .scalar (.boolean true)
  | _, _ => .scalar .null

/-- Model of the columnar engine's binary operations at the boundary of spec
section 6. Null operands propagate (except for Kleene `&`/`|`); mixed
int/double arithmetic promotes to double; `/` is true division yielding a
double (division by zero is modelled as null); comparisons yield booleans. -/
def evalBinOp (op : Operator) (a b : Cell) : Cell :=
  match op with
  | .And => kleeneAnd a b
  | .Or => kleeneOr a b
  | .Xor =>
    match a, b with
    | .scalar (.boolean x), .scalar (.boolean y) => .scalar (.boolean (xor x y))
    | _, _ => .scalar .null
  | .Eq =>
    match a, b with
    | .scalar .null, _ => .scalar .null
    | _, .scalar .null => .scalar .null
    | x, y => .scalar (.boolean (x = y))
  | .NotEq =>
    match a, b with
    | .scalar .null, _ => .scalar .null
    | _, .scalar .null => .scalar .null
    | x, y => .scalar (.boolean (¬ x = y))
  | .Lt =>
    match a, b with
    | .scalar (.int x), .scalar (.int y) => .scalar (.boolean (x < y))
    | .scalar (.double x), .scalar (.double y) => .scalar (.boolean (x < y))
    | _, _ => .scalar .null
  | .LtEq =>
    match a, b with
    | .scalar (.int x), .scalar (.int y) => .scalar (.boolean (x ≤ y))
    | .scalar (.double x), .scalar (.double y) => .scalar (.boolean (x ≤ y))
    | _, _ => .scalar .null
  | .Gt =>
    match a, b with
    | .scalar (.int x), .scalar (.int y) => .scalar (.boolean (y < x))
    | .scalar (.double x), .scalar (.double y) => .scalar (.boolean (y < x))
    | _, _ => .scalar .null
  | .GtEq =>
    match a, b with
    | .scalar (.int x), .scalar (.int y) => .scalar (.boolean (y ≤ x))
    | .scalar (.double x), .scalar (.double y) => .scalar (.boolean (y ≤ x))
    | _, _ => .scalar .null
  | .Plus =>
    match a, b with
    | .scalar (.int x), .scalar (.int y) => .scalar (.int (x + y))
    | .scalar (.double x), .scalar (.double y) => .scalar (.double (x + y))
    | .scalar (.int x), .scalar (.double y) => .scalar (.double (x + y))
    | .scalar (.double x), .scalar (.int y) => .scalar (.double (x + y))
    | _, _ => .scalar .null
  | .Minus =>
    match a, b with
    | .scalar (.int x), .scalar (.int y) => .scalar (.int (x - y))
    | .scalar (.double x), .scalar (.double y) => .scalar (.double (x - y))
    | .scalar (.int x), .scalar (.double y) => .scalar (.double (x - y))
    | .scalar (.double x), .scalar (.int y) => .scalar (.double (x - y))
    | _, _ => .scalar .null
  | .Multiply =>
    match a, b with
    | .scalar (.int x), .scalar (.int y) => .scalar (.int (x * y))
    | .scalar (.double x), .scalar (.double y) => .scalar (.double (x * y))
    | .scalar (.int x), .scalar (.double y) => .scalar (.double (x * y))
    | .scalar (.double x), .scalar (.int y) => .scalar (.double (x * y))
    | _, _ => .scalar .null
  | .Divide =>
    match a, b with
    | .scalar (.int x), .scalar (.int y) =>
      if y = 0 then .scalar .null else .scalar (.double ((x : Rat) / (y : Rat)))
    | .scalar (.double x), .scalar (.double y) =>
      if y = 0 then .scalar .null else .scalar (.double (x / y))
    | .scalar (.int x), .scalar (.double y) =>
      if y = 0 then .scalar .null else .scalar (.double ((x : Rat) / y))
    | .scalar (.double x), .scalar (.int y) =>
      if y = 0 then .scalar .null else .scalar (.double (x / (y : Rat)))
    | _, _ => .scalar .null
  | .Modulus =>
    match a, b with
    | .scalar (.int x), .scalar (.int y) =>
      if y = 0 then .scalar .null else .scalar (.int (x % y))
    | _, _ => .scalar .null

/-- Model of the columnar engine's per-row evaluation of a column expression
(spec section 6 boundary: this core only constructs expressions; evaluation
belongs to the engine). Uninterpreted engine functions read as null. -/
def evalExpr (r : Row) : Expr → Cell
  | .Col n => Row.get r n
  | .Literal v => .scalar v
  | .BinaryExpr l op rr => evalBinOp op (evalExpr r l) (evalExpr r rr)
  | .IsNull e => .scalar (.boolean (evalExpr r e = .scalar .null))
  | .NotExpr e =>
    match evalExpr r e with
    | .scalar (.boolean b) => .scalar (.boolean (!b))
    | _ => .scalar .null
  | .Ternary p t f =>
    match evalExpr r p with
    | .scalar (.boolean true) => evalExpr r t
    | .scalar (.boolean false) => evalExpr r f
    | _ => .scalar .null
  | .Fn _ _ => .scalar .null

/-- Engine `with_column`: appends (or replaces) the named column, holding the
expression evaluated on each row. -/
def DF.with_column (df : DF) (e : Expr) (name : String) : DF :=
  { cols := if df.cols.contains name then df.cols else df.cols ++ [name]
    rows := df.rows.map (fun r => Row.set r name (evalExpr r e)) }

/-- Engine `with_column` with an already computed series of values. -/
def DF.with_series (df : DF) (name : String) (vals : List Cell) : DF :=
  { cols := if df.cols.contains name then df.cols else df.cols ++ [name]
    rows := df.rows.zipWith (fun r v => Row.set r name v) vals }

/-- Engine `drop`: removes the named columns. -/
def DF.drop (df : DF) (names : List String) : DF :=
  { cols := df.cols.filter (fun c => ¬ names.contains c)
    rows := df.rows.map (fun r => Row.dropKeys r names) }

/-- Engine `filter`: keeps the rows where the boolean mask is true (null and
false are both dropped). -/
def DF.filterBy (df : DF) (e : Expr) : DF :=
  { cols := df.cols
    rows := df.rows.filter (fun r => evalExpr r e = .scalar (.boolean true)) }

/-- Engine `select`: exactly the named columns, in the given order. -/
def DF.select (df : DF) (names : List String) : DF :=
  { cols := names
    rows := df.rows.map (fun r => names.map (fun n => (n, Row.get r n))) }

/-- Stable deduplication keeping the first occurrence (engine
`unique_stable(None, UniqueKeepStrategy::First)`). -/
def dedupKeepFirst : List Row → List Row
  | [] => []
  | a :: t => a :: (dedupKeepFirst t).filter (fun x => ¬ x = a)

/-- Insertion step of the deterministic sort used to model the engine's
`sort_by_exprs` and Rust's `Vec::sort`. -/
def insertSorted (le : α → α → Bool) (a : α) : List α → List α
  | [] => [a]
  | b :: t => if le a b then a :: b :: t else b :: insertSorted le a t

/-- Insertion sort by a boolean total order. -/
def sortByC (le : α → α → Bool) : List α → List α
  | [] => []
  | a :: t => insertSorted le a (sortByC le t)

/-- Total order on strings via their character lists (model of Rust's
`String` ordering used by `Vec::sort` on column names). -/
def strLe (a b : String) : Bool :=
  decide (a.data.map Char.toNat ≤ b.data.map Char.toNat)

/-- Deterministic sort of column names, Rust `join_on.sort()`. -/
def sortStrings (l : List String) : List String := sortByC strLe l

/-- Deterministic sort of base type lists, Rust `types.sort()`. -/
def sortBaseTypes (l : List BaseRDFNodeType) : List BaseRDFNodeType :=
  sortByC btLe l

/-- Sort-key encoding of a scalar value, for the engine's value ordering. -/
def SVal.enc : SVal → List Rat
  | .null => [0]
  | .boolean b => [1, if b then 1 else 0]
  | .int i => [2, (i : Rat)]
  | .double q => [3, q]
  | .str s => 4 :: s.data.map (fun ch => ((ch.toNat : Int) : Rat))

/-- Sort-key encoding of a cell. -/
def Cell.enc : Cell → List Rat
  | .scalar v => 0 :: v.enc
  | .multi fs =>
    1 :: (fs.map (fun p => (p.1.sortKey.map (fun n => ((n : Int) : Rat))) ++ p.2.enc)).flatten

/-- Sort key of a row restricted to the given key columns, compared
lexicographically: the engine's multi-key ascending ordering with nulls
first (`sort_by_exprs` with all descending flags false). -/
def encRow (keys : List String) (r : Row) : List (List Rat) :=
  keys.map (fun k => Cell.enc (Row.get r k))

/-- Boolean row comparison by the key columns. -/
def rowLe (keys : List String) (a b : Row) : Bool :=
  decide (encRow keys a ≤ encRow keys b)

/-- Engine `sort_by_exprs` on the named key columns, ascending, nulls first. -/
def DF.sort_by (df : DF) (keys : List String) : DF :=
  { cols := df.cols, rows := sortByC (rowLe keys) df.rows }

/-- Join-key match on the shared columns: all key cells equal, and null keys
never match (the engine's default join behaviour). -/
def rowsMatch (keys : List String) (a b : Row) : Bool :=
  keys.all (fun k => Row.get a k = Row.get b k ∧ ¬ Row.get a k = Cell.scalar .null)

/-- Engine anti-join: keeps the left rows with no matching right row on the
key columns, preserving the left row order. -/
def antiJoin (l : DF) (r : DF) (keys : List String) : DF :=
  { cols := l.cols
    rows := l.rows.filter (fun lr => ¬ r.rows.any (fun rr => rowsMatch keys lr rr)) }

/-- Row list of a cross product: every left row merged with every right row,
left-major order. -/
def crossRows : List Row → List Row → List Row
  | [], _ => []
  | a :: t, rs => rs.map (fun b => a ++ b) ++ crossRows t rs

/-- Engine cross join. -/
def DF.cross (l r : DF) : DF :=
  { cols := l.cols ++ r.cols, rows := crossRows l.rows r.rows }

/-- Engine `unique_stable(None, UniqueKeepStrategy::First)` over all columns. -/
def DF.unique_stable (df : DF) : DF :=
  { cols := df.cols, rows := dedupKeepFirst df.rows }

/-- Polars join kinds used by the source. -/
inductive JoinType where
  | Inner
  | Left
  | Cross
  | Anti
deriving DecidableEq, Repr

/-- Modelled from the spec: the crate's error enum (src/errors.rs is not
among the sources; spec section 7 lists its kinds). -/
inductive QueryProcessingError where
  | VariableNotFound (varname context : String)
  | UnsupportedExpression (what : String)
  | UnsupportedFunction (what : String)
  | InternalInvariantViolation (what : String)
deriving DecidableEq, Repr

/-- Result of an embedded Rust function. `ok`/`err` mirror `Result`;
`aborted` records that the Rust code reaches a process abort (a
`panic`-, `todo`- or failed-assertion branch) instead of returning. -/
inductive Outcome (α : Type) where
  | ok (value : α)
  | err (e : QueryProcessingError)
  | aborted (msg : String)
deriving DecidableEq, Repr

/-- Typed Solution Relation, `SolutionMappings` (spec section 3): a tabular
relation plus the mapping from column name to `RDFNodeType`. -/
structure SolutionMappings where
  mappings : DF
  rdf_node_types : TypeMap
deriving DecidableEq, Repr

/-- Constructor `SolutionMappings::new`. -/
def SolutionMappings.new (mappings : DF) (rdf_node_types : TypeMap) : SolutionMappings :=
  ⟨mappings, rdf_node_types⟩

/-- Invariant of spec section 3: the type map's key set equals exactly the
relation's column set. -/
def typesMatchColumns (sm : SolutionMappings) : Bool :=
  (sm.rdf_node_types.keys.all (fun k => sm.mappings.cols.contains k)) &&
    (sm.mappings.cols.all (fun c => sm.rdf_node_types.containsKey c))

/-- Modelled from the spec: `representation::solution_mapping::is_string_col`
(not among the sources) — whether a column's physical representation is
string-like (IRIs, blank nodes and string literals), spec section 4.2. -/
def is_string_col : RDFNodeType → Bool
  | .IRI => true
  | .BlankNode => true
  | .Literal dt => dt = "http://www.w3.org/2001/XMLSchema#string"
  | .MultiType _ => false

/-- Modelled from the spec: the engine's cast of a string column to a
dictionary/interned (categorical) representation, which spec section 4.2
states is "purely a performance optimization (semantically a no-op)". -/
def castCategorical (df : DF) (_c : String) : DF := df

/-- Base-type constituents of a column type. -/
def RDFNodeType.baseTypes : RDFNodeType → List BaseRDFNodeType
  | .MultiType ts => ts
  | t => [BaseRDFNodeType.from_rdf_node_type t]

/-- Sorted, deduplicated union of two base type lists (Rust builds a
`HashSet` union and sorts the collected vector). -/
def setUnionSorted (a b : List BaseRDFNodeType) : List BaseRDFNodeType :=
  sortBaseTypes ((a ++ b).dedup)

/-- Name of the per-type sub-column a base type contributes when a multitype
column is exploded (spec section 4.4 step 1). -/
def BaseRDFNodeType.fieldName : BaseRDFNodeType → String
  | .IRI => "I"
  | .BlankNode => "B"
  | .Literal dt => "L" ++ dt

/-- Qualified sub-column name: original column name plus the type's field
name (spec section 4.4: "optionally qualified to avoid name collision"). -/
def prefixedName (c : String) (t : BaseRDFNodeType) : String :=
  c ++ "<>" ++ t.fieldName

/-- Sub-field of a multitype struct cell for a base type; non-multi cells and
absent fields read as null (spec section 4.4 step 1: each sub-column holds
the original value when the row's concrete type matches, null otherwise). -/
def fieldGet : Cell → BaseRDFNodeType → SVal
  | .multi fs, t =>
    match fs.find? (fun p => p.1 = t) with
    | some p => p.2
    | none => .null
  | .scalar _, _ => .null

/-- Scalar view of a cell (sub-columns produced by explode are scalar). -/
def Cell.asScalar : Cell → SVal
  | .scalar v => v
  | .multi _ => .null

/-- Per-row action of `convert_lf_col_to_multitype`: wraps the cell of the
named column into a one-field multitype struct tagged with its base type. -/
def convRow (c : String) (t : RDFNodeType) (r : Row) : Row :=
  match Row.get r c with
  | .scalar v => Row.set r c (.multi [(BaseRDFNodeType.from_rdf_node_type t, v)])
  | .multi fs => Row.set r c (.multi fs)

/-- Modelled from the spec:
`representation::multitype::convert_lf_col_to_multitype` (not among the
sources) — re-represents a single-typed column as a multitype struct column
with one sub-field, that column's base type, holding the original value. -/
def convert_lf_col_to_multitype (df : DF) (c : String) (t : RDFNodeType) : DF :=
  { cols := df.cols, rows := df.rows.map (convRow c t) }

/-- Per-column record of an explode: the constituent base types of the
sub-columns, and their qualified physical column names (in the same order). -/
abbrev ExplodedMap := List (String × (List BaseRDFNodeType × List String))

/-- Explosion of one row's multitype column into its per-type sub-columns
(spec section 4.4 step 1). -/
def explodeRow (c : String) (ts : List BaseRDFNodeType) (r : Row) : Row :=
  (Row.dropKeys r [c]) ++
    ts.map (fun t => (prefixedName c t, Cell.scalar (fieldGet (Row.get r c) t)))

/-- One entry of the explode fold: replaces a multitype column by its
per-type sub-columns and records them. -/
def explodeStep (acc : DF × ExplodedMap) (entry : String × RDFNodeType) :
    DF × ExplodedMap :=
  match entry.2 with
  | .MultiType ts =>
    ({ cols := (acc.1.cols.filter (fun x => ¬ x = entry.1)) ++
         ts.map (fun t => prefixedName entry.1 t)
       rows := acc.1.rows.map (explodeRow entry.1 ts) },
     acc.2 ++ [(entry.1, (ts, ts.map (fun t => prefixedName entry.1 t)))])
  | _ => acc

/-- Modelled from the spec: `representation::multitype::explode_multicols`
(not among the sources) — spec section 4.4 step 1: decomposes every column
the map marks as `MultiType` into one nullable sub-column per constituent
base type, and returns, per column, the list of sub-columns produced. -/
def explode_multicols (df : DF) (multitypes : TypeMap) : DF × ExplodedMap :=
  multitypes.foldl explodeStep (df, [])

/-- Implosion of one row: replaces a column's sub-columns by a single
multitype struct cell (spec section 4.4 step 4). -/
def implodeRow (c : String) (ts : List BaseRDFNodeType) (prefixed : List String)
    (r : Row) : Row :=
  (Row.dropKeys r prefixed) ++
    [(c, Cell.multi ((ts.zip prefixed).map (fun p => (p.1, (Row.get r p.2).asScalar))))]

/-- One entry of the implode fold: replaces a column's sub-columns by a
single multitype struct column. -/
def implodeStep (d : DF) (entry : String × (List BaseRDFNodeType × List String)) :
    DF :=
  { cols := (d.cols.filter (fun x => ¬ entry.2.2.contains x)) ++ [entry.1]
    rows := d.rows.map (implodeRow entry.1 entry.2.1 entry.2.2) }

/-- Modelled from the spec: `representation::multitype::implode_multicolumns`
(not among the sources) — spec section 4.4 step 4: recombines each exploded
column's sub-columns back into a single multitype struct column, without
merging or coercing values across sub-columns. -/
def implode_multicolumns (df : DF) (em : ExplodedMap) : DF :=
  em.foldl implodeStep df

/-- Engine `concat_lf_diagonal` of two frames: schema is the union of both
schemas, rows are stacked, columns absent on one side are null-filled
(absent columns of a row already read as null). -/
def concat_lf_diagonal (l r : DF) : DF :=
  { cols := l.cols ++ r.cols.filter (fun c => ¬ l.cols.contains c)
    rows := l.rows ++ r.rows }

/-- Appends to a side's sub-column lists those of the other side that it is
missing (the merge loop of `union`, graph_patterns.rs lines 438-447). -/
def addMissingInner (li : List BaseRDFNodeType) (lp : List String) :
    List (BaseRDFNodeType × String) → List BaseRDFNodeType × List String
  | [] => (li, lp)
  | (r, pr) :: rest =>
    if li.contains r then addMissingInner li lp rest
    else addMissingInner (li ++ [r]) (lp ++ [pr]) rest

/-- Update of one left explode record by one right record: for the matching
column, the right side's sub-columns the left lacks are appended. -/
def mergeEntryUpd (entry e : String × (List BaseRDFNodeType × List String)) :
    String × (List BaseRDFNodeType × List String) :=
  if e.1 = entry.1 then
    (e.1, addMissingInner e.2.1 e.2.2 (entry.2.1.zip entry.2.2))
  else e

/-- Merge of the right explode record into the left one, for columns present
on both sides (spec section 4.4 step 2). -/
def mergeExploded (lem rem : ExplodedMap) : ExplodedMap :=
  rem.foldl (fun m entry => m.map (mergeEntryUpd entry)) lem

/-- Sorted intersection of the two relations' variable (column) names: the
shared-column computation of `join`, `left_join` and `minus`
(graph_patterns.rs, e.g. lines 260-267). -/
def sharedJoinOn (left_datatypes right_datatypes : TypeMap) : List String :=
  sortStrings
    ((left_datatypes.keys.filter (fun k => right_datatypes.keys.contains k)).dedup)

/-- Modelled from the spec:
`representation::multitype::create_join_compatible_solution_mappings` (not
among the sources) — spec section 4.2: for every shared column whose type
differs between the sides, both sides are re-represented over the same
multitype layout (the union of their constituent base types) so that join
equality is computed per constituent concrete type; other columns are left
untouched. With no shared columns both relations are returned unchanged. -/
def create_join_compatible_solution_mappings (lm : DF) (lt : TypeMap) (rm : DF)
    (rt : TypeMap) (_inner : Bool) : DF × TypeMap × DF × TypeMap :=
  let shared := lt.keys.filter (fun k => rt.keys.contains k)
  shared.foldl
    (fun st c =>
      match TypeMap.get st.2.1 c, TypeMap.get st.2.2.2 c with
      | some ltc, some rtc =>
        if ltc = rtc then st
        else
          let u := RDFNodeType.MultiType (setUnionSorted ltc.baseTypes rtc.baseTypes)
          let lm2 :=
            match ltc with
            | .MultiType _ => st.1
            | _ => convert_lf_col_to_multitype st.1 c ltc
          let rm2 :=
            match rtc with
            | .MultiType _ => st.2.2.1
            | _ => convert_lf_col_to_multitype st.2.2.1 c rtc
          (lm2, TypeMap.insert st.2.1 c u, rm2, TypeMap.insert st.2.2.2 c u)
      | _, _ => st)
    (lm, lt, rm, rt)

/-- Merge of a matched right row into a left row: right cells for columns the
left row does not carry are appended. -/
def mergeRows (lr rr : Row) : Row :=
  lr ++ rr.filter (fun p => ¬ lr.any (fun q => q.1 = p.1))

/-- Modelled from the spec: `representation::multitype::join_workaround` (not
among the sources) — the inner/left equi-join on the shared columns, spec
section 4.2: inner join keeps only matching row pairs; left join keeps all
left rows, with right columns null-filled when unmatched (absent columns of
a row read as null). -/
def join_workaround (lm : DF) (lt : TypeMap) (rm : DF) (rt : TypeMap)
    (jt : JoinType) : DF :=
  let keys := sharedJoinOn lt rt
  let cols := lm.cols ++ rm.cols.filter (fun c => ¬ lm.cols.contains c)
  match jt with
  | .Inner =>
    { cols := cols
      rows := (lm.rows.map (fun lr =>
        (rm.rows.filter (fun rr => rowsMatch keys lr rr)).map
          (fun rr => mergeRows lr rr))).flatten }
  | .Left =>
    { cols := cols
      rows := (lm.rows.map (fun lr =>
        match rm.rows.filter (fun rr => rowsMatch keys lr rr) with
        | [] => [lr]
        | matches_ => matches_.map (fun rr => mergeRows lr rr))).flatten }
  | _ => { cols := cols, rows := [] }

/-- Operator `distinct` (graph_patterns.rs lines 15-22): stable
deduplication over all columns, first occurrence kept. -/
def distinct (solution_mappings : SolutionMappings) : Outcome SolutionMappings :=
  .ok { solution_mappings with
          mappings := solution_mappings.mappings.unique_stable }

/-- Operator `filter` (graph_patterns.rs lines 42-51): keeps the rows where
the pre-compiled filter-expression column is true, then drops that column
from the frame. The type map is not touched. -/
def filter (solution_mappings : SolutionMappings) (expression_context : String) :
    Outcome SolutionMappings :=
  .ok { solution_mappings with
          mappings :=
            (solution_mappings.mappings.filterBy (.Col expression_context)).drop
              [expression_context] }

/-- Operator `minus` (graph_patterns.rs lines 251-303): sorted shared-column
intersection; if empty, the left relation is returned unchanged; otherwise
string-typed shared columns are re-encoded (a no-op), both sides are sorted
ascending by the shared columns, and a sort-based anti-join keeps the left
rows with no matching right row. -/
def minus (left_solution_mappings right_solution_mappings : SolutionMappings) :
    Outcome SolutionMappings :=
  let right_mappings := right_solution_mappings.mappings
  let right_datatypes := right_solution_mappings.rdf_node_types
  let join_on := sharedJoinOn left_solution_mappings.rdf_node_types right_datatypes
  if join_on = [] then
    .ok left_solution_mappings
  else
    let right_mappings := join_on.foldl
      (fun df c =>
        match TypeMap.get left_solution_mappings.rdf_node_types c with
        | some dt => if is_string_col dt then castCategorical df c else df
        | none => df)
      right_mappings
    let left_mappings := join_on.foldl
      (fun df c =>
        match TypeMap.get left_solution_mappings.rdf_node_types c with
        | some dt => if is_string_col dt then castCategorical df c else df
        | none => df)
      left_solution_mappings.mappings
    let right_mappings := right_mappings.sort_by join_on
    let left_mappings := left_mappings.sort_by join_on
    .ok { left_solution_mappings with
            mappings := antiJoin left_mappings right_mappings join_on }

/-- Operator `join` (graph_patterns.rs lines 95-170): sorted shared-column
intersection, join-compatibility normalization, then a cross join when the
shared set is empty and otherwise a (string-recoded) inner equi-join; the
output type map is the left map extended with the right's new entries. -/
def join (left_solution_mappings right_solution_mappings : SolutionMappings) :
    Outcome SolutionMappings :=
  let right_mappings := right_solution_mappings.mappings
  let right_datatypes := right_solution_mappings.rdf_node_types
  let join_on := sharedJoinOn left_solution_mappings.rdf_node_types right_datatypes
  let left_mappings := left_solution_mappings.mappings
  let left_datatypes := left_solution_mappings.rdf_node_types
  let compat :=
    create_join_compatible_solution_mappings left_mappings left_datatypes
      right_mappings right_datatypes true
  let left_mappings := compat.1
  let left_datatypes := compat.2.1
  let right_mappings := compat.2.2.1
  let right_datatypes := compat.2.2.2
  let joined :=
    if join_on = [] then
      left_mappings.cross right_mappings
    else
      let right_mappings := join_on.foldl
        (fun df c =>
          match TypeMap.get right_datatypes c with
          | some dt => if is_string_col dt then castCategorical df c else df
          | none => df)
        right_mappings
      let left_mappings := join_on.foldl
        (fun df c =>
          match TypeMap.get right_datatypes c with
          | some dt => if is_string_col dt then castCategorical df c else df
          | none => df)
        left_mappings
      join_workaround left_mappings left_datatypes right_mappings right_datatypes
        .Inner
  let left_datatypes := right_datatypes.foldl
    (fun m kv => if m.containsKey kv.1 then m else m ++ [(kv.1, kv.2)])
    left_datatypes
  .ok { mappings := joined, rdf_node_types := left_datatypes }

/-- Mutable state of `union`'s type-reconciliation loop
(graph_patterns.rs lines 362-423). -/
structure UnionState where
  left_mappings : DF
  right_mappings : DF
  updated_types : TypeMap
  left_new_multitypes : TypeMap
  right_new_multitypes : TypeMap

/-- One iteration of `union`'s loop over the left type map
(graph_patterns.rs lines 373-423): for a column shared with the right side
whose types differ, computes the sorted union of both sides' constituent
base types and re-represents whichever side is not yet multitype. -/
def unionStep (right_datatypes : TypeMap) (st : UnionState)
    (entry : String × RDFNodeType) : UnionState :=
  let left_col := entry.1
  let left_type := entry.2
  match TypeMap.get right_datatypes left_col with
  | none => st
  | some right_type =>
    if left_type = right_type then st
    else
      match left_type with
      | .MultiType left_types =>
        match right_type with
        | .MultiType right_types =>
          { st with
              updated_types :=
                st.updated_types.insert left_col
                  (.MultiType (setUnionSorted left_types right_types)) }
        | _ =>
          let base_right := BaseRDFNodeType.from_rdf_node_type right_type
          let new_type :=
            RDFNodeType.MultiType (setUnionSorted left_types [base_right])
          { st with
              right_mappings :=
                convert_lf_col_to_multitype st.right_mappings left_col right_type
              right_new_multitypes :=
                st.right_new_multitypes.insert left_col (.MultiType [base_right])
              updated_types := st.updated_types.insert left_col new_type }
      | _ =>
        match right_type with
        | .MultiType right_types =>
          let base_left := BaseRDFNodeType.from_rdf_node_type left_type
          let new_type :=
            RDFNodeType.MultiType (setUnionSorted right_types [base_left])
          { st with
              left_mappings :=
                convert_lf_col_to_multitype st.left_mappings left_col left_type
              left_new_multitypes :=
                st.left_new_multitypes.insert left_col (.MultiType [base_left])
              updated_types := st.updated_types.insert left_col new_type }
        | _ =>
          let base_left := BaseRDFNodeType.from_rdf_node_type left_type
          let base_right := BaseRDFNodeType.from_rdf_node_type right_type
          let new_type :=
            RDFNodeType.MultiType (sortBaseTypes [base_left, base_right])
          { st with
              left_mappings :=
                convert_lf_col_to_multitype st.left_mappings left_col left_type
              right_mappings :=
                convert_lf_col_to_multitype st.right_mappings left_col right_type
              left_new_multitypes :=
                st.left_new_multitypes.insert left_col (.MultiType [base_left])
              right_new_multitypes :=
                st.right_new_multitypes.insert left_col (.MultiType [base_right])
              updated_types := st.updated_types.insert left_col new_type }

/-- The loops of `union` at graph_patterns.rs lines 424-434: every column
already `MultiType` in a side's type map is recorded in that side's
to-explode map. -/
def addExistingMultitypes (m : TypeMap) (datatypes : TypeMap) : TypeMap :=
  datatypes.foldl
    (fun m kv =>
      match kv.2 with
      | .MultiType _ => m.insert kv.1 kv.2
      | _ => m)
    m

/-- One entry of `union`'s output-type-map fold: a column not yet present is
appended, with its reconciled multitype when one was recorded. -/
def unionOutStep (updated_types : TypeMap) (om : TypeMap)
    (kv : String × RDFNodeType) : TypeMap :=
  if om.containsKey kv.1 then om
  else
    match TypeMap.get updated_types kv.1 with
    | some v => om ++ [(kv.1, v)]
    | none => om ++ [kv]

/-- Output type map of `union` (graph_patterns.rs lines 453-462): left
entries then right entries, first occurrence wins, reconciled columns taking
their updated multitype. -/
def unionOutMap (left_datatypes right_datatypes updated_types : TypeMap) :
    TypeMap :=
  (left_datatypes ++ right_datatypes).foldl (unionOutStep updated_types) []

/-- Operator `union` (graph_patterns.rs lines 358-465): reconciles the types
of shared columns (spec section 4.4), explodes every multitype column into
per-type sub-columns on both sides, aligns the two sides' sub-column lists,
concatenates diagonally, implodes the sub-columns back, and merges the type
maps with the reconciled multitypes. -/
def union (left_solution_mappings right_solution_mappings : SolutionMappings) :
    Outcome SolutionMappings :=
  let left_mappings := left_solution_mappings.mappings
  let left_datatypes := left_solution_mappings.rdf_node_types
  let right_mappings := right_solution_mappings.mappings
  let right_datatypes := right_solution_mappings.rdf_node_types
  let st := left_datatypes.foldl (unionStep right_datatypes)
    ⟨left_mappings, right_mappings, [], [], []⟩
  let left_new_multitypes := addExistingMultitypes st.left_new_multitypes left_datatypes
  let right_new_multitypes := addExistingMultitypes st.right_new_multitypes right_datatypes
  let lex := explode_multicols st.left_mappings left_new_multitypes
  let rex := explode_multicols st.right_mappings right_new_multitypes
  let left_exploded_map := mergeExploded lex.2 rex.2
  let output_mappings := concat_lf_diagonal lex.1 rex.1
  let output_mappings := implode_multicolumns output_mappings left_exploded_map
  let out_map := unionOutMap left_datatypes right_datatypes st.updated_types
  .ok (SolutionMappings.new output_mappings out_map)

/-- XSD datatype IRI constants used by the source (oxrdf `xsd::...`). -/
def xsdBoolean : String := "http://www.w3.org/2001/XMLSchema#boolean"

/-- XSD double IRI. -/
def xsdDouble : String := "http://www.w3.org/2001/XMLSchema#double"

/-- XSD string IRI. -/
def xsdString : String := "http://www.w3.org/2001/XMLSchema#string"

/-- XSD integer IRI. -/
def xsdInteger : String := "http://www.w3.org/2001/XMLSchema#integer"

/-- XSD int IRI. -/
def xsdInt : String := "http://www.w3.org/2001/XMLSchema#int"

/-- XSD long IRI. -/
def xsdLong : String := "http://www.w3.org/2001/XMLSchema#long"

/-- XSD byte IRI. -/
def xsdByte : String := "http://www.w3.org/2001/XMLSchema#byte"

/-- XSD short IRI. -/
def xsdShort : String := "http://www.w3.org/2001/XMLSchema#short"

/-- XSD unsignedInt IRI. -/
def xsdUnsignedInt : String := "http://www.w3.org/2001/XMLSchema#unsignedInt"

/-- XSD unsignedLong IRI. -/
def xsdUnsignedLong : String := "http://www.w3.org/2001/XMLSchema#unsignedLong"

/-- XSD unsignedByte IRI. -/
def xsdUnsignedByte : String := "http://www.w3.org/2001/XMLSchema#unsignedByte"

/-- XSD unsignedShort IRI. -/
def xsdUnsignedShort : String := "http://www.w3.org/2001/XMLSchema#unsignedShort"

/-- XSD dateTime IRI. -/
def xsdDateTime : String := "http://www.w3.org/2001/XMLSchema#dateTime"

/-- Integer-family literal datatypes, exactly the datatypes the `Divide` arm
of `binary_expression` matches (expressions.rs lines 110-121). -/
def integerFamily : List String :=
  [xsdInt, xsdLong, xsdInteger, xsdByte, xsdShort, xsdUnsignedInt,
   xsdUnsignedLong, xsdUnsignedByte, xsdUnsignedShort]

/-- Modelled from the spec: the custom-function IRIs of `crate::constants`
(not among the sources; spec section 4.1/6 describes them as fixed IRI keys
of the function registry). Their concrete text is opaque; distinct
placeholder strings stand in for it. -/
def DATETIME_AS_NANOS : String := "urn:constants:DateTimeAsNanos"

/-- Custom-function IRI for second-precision epoch conversion. -/
def DATETIME_AS_SECONDS : String := "urn:constants:DateTimeAsSeconds"

/-- Custom-function IRI for epoch-nanoseconds to datetime conversion. -/
def NANOS_AS_DATETIME : String := "urn:constants:NanosAsDateTime"

/-- Custom-function IRI for epoch-seconds to datetime conversion. -/
def SECONDS_AS_DATETIME : String := "urn:constants:SecondsAsDateTime"

/-- Custom-function IRI for modulus. -/
def MODULUS : String := "urn:constants:Modulus"

/-- Custom-function IRI for datetime interval flooring. -/
def FLOOR_DATETIME_TO_SECONDS_INTERVAL : String :=
  "urn:constants:FloorDateTimeToSecondsInterval"

/-- Helper `drop_inner_contexts` (expressions.rs lines 694-703): removes the
given context columns from the type map and drops them from the frame. -/
def drop_inner_contexts (sm : SolutionMappings) (contexts : List String) :
    SolutionMappings :=
  { mappings := sm.mappings.drop contexts
    rdf_node_types := contexts.foldl TypeMap.remove sm.rdf_node_types }

/-- Compiler `variable` (expressions.rs lines 55-74): referencing a variable
absent from the type map fails with `VariableNotFound`; otherwise the
variable's column is copied under the node's context and its type recorded. -/
def variableExpr (sm : SolutionMappings) (v : String) (context : String) :
    Outcome SolutionMappings :=
  if ¬ sm.rdf_node_types.containsKey v then
    .err (.VariableNotFound v context)
  else
    match TypeMap.get sm.rdf_node_types v with
    | some existing_type =>
      .ok { mappings := sm.mappings.with_column (.Col v) context
            rdf_node_types := sm.rdf_node_types.insert context existing_type }
    | none => .aborted "unwrap of a missing variable type"

/-- Compiler `bound` (expressions.rs lines 209-223): appends, under the
node's context, the column `is_null().not()` of the variable, records a
boolean type, and then calls `drop_inner_contexts` with `context` itself. -/
def bound (sm : SolutionMappings) (v : String) (context : String) :
    Outcome SolutionMappings :=
  let mappings := sm.mappings.with_column (.NotExpr (.IsNull (.Col v))) context
  let rdf_node_types := sm.rdf_node_types.insert context (.Literal xsdBoolean)
  .ok (drop_inner_contexts ⟨mappings, rdf_node_types⟩ [context])

/-- Compiler `not_expression` (expressions.rs lines 193-207). -/
def not_expression (sm : SolutionMappings) (not_context context : String) :
    Outcome SolutionMappings :=
  let mappings := sm.mappings.with_column (.NotExpr (.Col not_context)) context
  let rdf_node_types := sm.rdf_node_types.insert context (.Literal xsdBoolean)
  .ok (drop_inner_contexts ⟨mappings, rdf_node_types⟩ [not_context])

/-- Compiler `binary_expression` (expressions.rs lines 76-146): appends the
binary expression column under the node's context; comparisons and logical
operators are typed boolean; `+ - * /` take the left operand's type, except
that `/` with an integer-family right literal type is promoted to double;
any other operator reaches the `match`'s aborting catch-all. Finally both
child context columns are dropped. -/
def binary_expression (sm : SolutionMappings) (op : Operator)
    (left_context right_context context : String) : Outcome SolutionMappings :=
  let mappings :=
    sm.mappings.with_column
      (.BinaryExpr (.Col left_context) op (.Col right_context)) context
  let t : Outcome RDFNodeType :=
    match op with
    | .LtEq | .GtEq | .Gt | .Lt | .And | .Eq | .Or => .ok (.Literal xsdBoolean)
    | .Plus | .Minus | .Multiply | .Divide =>
      match TypeMap.get sm.rdf_node_types left_context,
          TypeMap.get sm.rdf_node_types right_context with
      | some left_type, some right_type =>
        let div_int :=
          op = Operator.Divide &&
            (match right_type with
             | .Literal right_lit => integerFamily.contains right_lit
             | _ => false)
        if div_int then .ok (.Literal xsdDouble) else .ok left_type
      | _, _ => .aborted "unwrap of a missing operand type"
    | _ => .aborted "reached the catch-all of the operator match"
  match t with
  | .ok t =>
    .ok (drop_inner_contexts
      ⟨mappings, sm.rdf_node_types.insert context t⟩
      [left_context, right_context])
  | .err e => .err e
  | .aborted m => .aborted m

/-- Compiler `in_expression` (expressions.rs lines 661-692): starting from
the literal false, folds one disjunct per candidate comparing the left
operand's column for equality; the result is typed boolean and the left and
candidate context columns are dropped. -/
def in_expression (sm : SolutionMappings) (left_context : String)
    (right_contexts : List String) (context : String) : Outcome SolutionMappings :=
  let expr := right_contexts.foldl
    (fun e right_context =>
      Expr.BinaryExpr e .Or
        (.BinaryExpr (.Col left_context) .Eq (.Col right_context)))
    (.Literal (.boolean false))
  let mappings := sm.mappings.with_column expr context
  let rdf_node_types := sm.rdf_node_types.insert context (.Literal xsdBoolean)
  let sm1 := drop_inner_contexts ⟨mappings, rdf_node_types⟩ [left_context]
  .ok (drop_inner_contexts sm1 right_contexts)

/-- Compiler `exists` (expressions.rs lines 280-309): materializes the outer
relation and the deduplicated single-column probe of the inner pattern,
appends under the node's context a boolean membership column of the outer
rows' exists-context key against the probe, and drops the exists-context
column. No type-map entry is inserted for the new column (as in the
source). -/
def existsExpr (sm : SolutionMappings) (exists_lf : DF)
    (exists_context context : String) : Outcome SolutionMappings :=
  let df := sm.mappings
  let exists_df := (exists_lf.select [exists_context]).unique_stable
  let ser : List Cell := df.rows.map (fun r =>
    .scalar (.boolean (exists_df.rows.any
      (fun er => Row.get er exists_context = Row.get r exists_context))))
  let df := df.with_series context ser
  .ok (drop_inner_contexts ⟨df, sm.rdf_node_types⟩ [exists_context])

/-- SPARQL function node kinds (spargebra `Function`): the handled subset of
the source plus representatives of the unhandled variants its catch-all
receives. -/
inductive Function where
  | Year
  | Month
  | Day
  | Hours
  | Minutes
  | Seconds
  | Abs
  | Ceil
  | Floor
  | Concat
  | Round
  | Regex
  | Custom (iri : String)
  | Contains
  | StrStarts
  | StrEnds
  | Str
  | Lang
  | Datatype
deriving DecidableEq, Repr

/-- SPARQL expression AST nodes (spargebra `Expression`), reduced to what
`func_expression` inspects: it only pattern-matches a literal second
argument of `REGEX` and otherwise counts arguments. -/
inductive Expression where
  | Literal (value : String)
  | Variable (name : String)
  | NamedNode (iri : String)
deriving DecidableEq, Repr

/-- Lookup in the `args_contexts` map from argument position to context. -/
def lookupCtx : List (Nat × String) → Nat → Option String
  | [], _ => none
  | (i, c) :: rest, j => if i = j then some c else lookupCtx rest j

/-- Single-argument arm of `func_expression` that records a fixed result
type: `assert_eq!(args.len(), 1)`, then the engine function of the first
argument's context column is appended under the node's context. -/
def unary_arm (sm : SolutionMappings) (args_len : Nat)
    (args_contexts : List (Nat × String)) (context fname : String)
    (t : RDFNodeType) : Outcome SolutionMappings :=
  if args_len = 1 then
    match lookupCtx args_contexts 0 with
    | some first_context =>
      .ok { mappings :=
              sm.mappings.with_column (.Fn fname [.Col first_context]) context
            rdf_node_types := sm.rdf_node_types.insert context t }
    | none => .aborted "unwrap of a missing argument context"
  else .aborted "arity assertion failed"

/-- Single-argument arm of `func_expression` that copies the argument's
recorded type (`ABS`, `ROUND`). -/
def unary_arm_keep_type (sm : SolutionMappings) (args_len : Nat)
    (args_contexts : List (Nat × String)) (context fname : String) :
    Outcome SolutionMappings :=
  if args_len = 1 then
    match lookupCtx args_contexts 0 with
    | some first_context =>
      match TypeMap.get sm.rdf_node_types first_context with
      | some existing_type =>
        .ok { mappings :=
                sm.mappings.with_column (.Fn fname [.Col first_context]) context
              rdf_node_types := sm.rdf_node_types.insert context existing_type }
      | none => .aborted "unwrap of a missing argument type"
    | none => .aborted "unwrap of a missing argument context"
  else .aborted "arity assertion failed"

/-- Two-argument arm of `func_expression` with a fixed result type. -/
def binary_arm (sm : SolutionMappings) (args_len : Nat)
    (args_contexts : List (Nat × String)) (context fname : String)
    (t : RDFNodeType) : Outcome SolutionMappings :=
  if args_len = 2 then
    match lookupCtx args_contexts 0, lookupCtx args_contexts 1 with
    | some first_context, some second_context =>
      .ok { mappings :=
              sm.mappings.with_column
                (.Fn fname [.Col first_context, .Col second_context]) context
            rdf_node_types := sm.rdf_node_types.insert context t }
    | _, _ => .aborted "unwrap of a missing argument context"
  else .aborted "arity assertion failed"

/-- Dispatch body of `func_expression` (expressions.rs lines 318-656),
before the final dropping of the argument context columns. Arms that the
source leaves as `todo`-style placeholders (an unknown custom IRI, a
non-2-ary `REGEX`, and every function kind outside the handled subset)
abort, as do the arity assertions. -/
def func_expression_body (sm : SolutionMappings) (func : Function)
    (args : List Expression) (args_contexts : List (Nat × String))
    (context : String) : Outcome SolutionMappings :=
  match func with
  | .Year =>
    unary_arm sm args.length args_contexts context "year"
      (.Literal xsdUnsignedInt)
  | .Month =>
    unary_arm sm args.length args_contexts context "month"
      (.Literal xsdUnsignedInt)
  | .Day =>
    unary_arm sm args.length args_contexts context "day"
      (.Literal xsdUnsignedInt)
  | .Hours =>
    unary_arm sm args.length args_contexts context "hour"
      (.Literal xsdUnsignedInt)
  | .Minutes =>
    unary_arm sm args.length args_contexts context "minute"
      (.Literal xsdUnsignedInt)
  | .Seconds =>
    unary_arm sm args.length args_contexts context "second"
      (.Literal xsdUnsignedInt)
  | .Abs => unary_arm_keep_type sm args.length args_contexts context "abs"
  | .Ceil =>
    unary_arm sm args.length args_contexts context "ceil" (.Literal xsdInteger)
  | .Floor =>
    unary_arm sm args.length args_contexts context "floor" (.Literal xsdInteger)
  | .Concat =>
    if 1 < args.length then
      let cols := (List.range args.length).map
        (fun i => Expr.Col ((lookupCtx args_contexts i).getD ""))
      .ok { mappings := sm.mappings.with_column (.Fn "concat_str" cols) context
            rdf_node_types :=
              sm.rdf_node_types.insert context (.Literal xsdString) }
    else .aborted "arity assertion failed"
  | .Round => unary_arm_keep_type sm args.length args_contexts context "round"
  | .Regex =>
    if ¬ args.length = 2 then .aborted "unsupported amount of regex args"
    else
      match lookupCtx args_contexts 0 with
      | some first_context =>
        match args.get? 1 with
        | some (.Literal l) =>
          .ok { mappings :=
                  sm.mappings.with_column
                    (.Fn "str_contains"
                      [.Col first_context, .Literal (.str l)]) context
                rdf_node_types :=
                  sm.rdf_node_types.insert context (.Literal xsdString) }
        | _ => .ok sm
      | none => .aborted "unwrap of a missing argument context"
  | .Custom nn =>
    if nn = xsdInteger then
      unary_arm sm args.length args_contexts context "cast_int64"
        (.Literal xsdInteger)
    else if nn = xsdString then
      unary_arm sm args.length args_contexts context "cast_string"
        (.Literal xsdString)
    else if nn = DATETIME_AS_NANOS then
      unary_arm sm args.length args_contexts context "datetime_as_nanos"
        (.Literal xsdInteger)
    else if nn = DATETIME_AS_SECONDS then
      unary_arm sm args.length args_contexts context "datetime_as_seconds"
        (.Literal xsdInteger)
    else if nn = NANOS_AS_DATETIME then
      unary_arm sm args.length args_contexts context "nanos_as_datetime"
        (.Literal xsdDateTime)
    else if nn = SECONDS_AS_DATETIME then
      unary_arm sm args.length args_contexts context "seconds_as_datetime"
        (.Literal xsdDateTime)
    else if nn = MODULUS then
      binary_arm sm args.length args_contexts context "modulus"
        (.Literal xsdInteger)
    else if nn = FLOOR_DATETIME_TO_SECONDS_INTERVAL then
      binary_arm sm args.length args_contexts context "floor_seconds_interval"
        (.Literal xsdDateTime)
    else .aborted "reached the placeholder for an unknown custom function"
  | .Contains =>
    binary_arm sm args.length args_contexts context "str_contains_literal"
      (.Literal xsdBoolean)
  | .StrStarts =>
    binary_arm sm args.length args_contexts context "str_starts_with"
      (.Literal xsdBoolean)
  | .StrEnds =>
    binary_arm sm args.length args_contexts context "str_ends_with"
      (.Literal xsdBoolean)
  | _ => .aborted "reached the catch-all of the function match"

/-- Compiler `func_expression` (expressions.rs lines 311-659): dispatches on
the function kind and finally drops all argument context columns. -/
def func_expression (sm : SolutionMappings) (func : Function)
    (args : List Expression) (args_contexts : List (Nat × String))
    (context : String) : Outcome SolutionMappings :=
  match func_expression_body sm func args args_contexts context with
  | .ok sm1 => .ok (drop_inner_contexts sm1 (args_contexts.map (·.2)))
  | .err e => .err e
  | .aborted m => .aborted m

section ConcreteInputs

/-- Relation for exercising `bound`: one variable column `x` of IRI type. -/
def boundInput : SolutionMappings :=
  ⟨⟨["x"], [[("x", Cell.scalar (.str "a"))]]⟩, [("x", RDFNodeType.IRI)]⟩

/-- Relation for exercising the dispatch catch-alls: two integer columns. -/
def dispatchInput : SolutionMappings :=
  ⟨⟨["a", "b"],
    [[("a", Cell.scalar (.int 1)), ("b", Cell.scalar (.int 2))]]⟩,
   [("a", RDFNodeType.Literal xsdInteger), ("b", RDFNodeType.Literal xsdInteger)]⟩

/-- Relation for exercising `filter`: a data column `x` and the compiled
boolean filter-expression column `c0`, with both recorded in the type map,
so the section-3 invariant holds on input. -/
def filterInput : SolutionMappings :=
  ⟨⟨["x", "c0"],
    [[("x", Cell.scalar (.int 1)), ("c0", Cell.scalar (.boolean true))],
     [("x", Cell.scalar (.int 2)), ("c0", Cell.scalar (.boolean false))]]⟩,
   [("x", RDFNodeType.Literal xsdInteger), ("c0", RDFNodeType.Literal xsdBoolean)]⟩

end ConcreteInputs

/-- C2 (code bug): the spec's expression-compiler contract says each node —
BOUND among them — returns a relation with one NEW column named by the
node's context, with its `RDFNodeType` recorded and only the node's child
context columns removed. The source's `bound` instead passes its OWN
`context` to `drop_inner_contexts` (expressions.rs line 221), so the freshly
appended result column and its freshly inserted type-map entry are
immediately dropped: on a one-variable relation, `bound` returns the input
unchanged and the output has no `c0` column and no `c0` type entry. -/
theorem bound_drops_own_context_column :
    bound boundInput "x" "c0" = .ok boundInput ∧
    boundInput.mappings.cols.contains "c0" = false ∧
    TypeMap.get boundInput.rdf_node_types "c0" = none := by decide

/-- C3 (code bug): the spec requires every expression or function/arity
combination without a translation to surface `UnsupportedExpression` /
`UnsupportedFunction` instead of aborting the process, but the source's
dispatch reaches aborting branches: `binary_expression`'s operator `match`
ends in a bare abort (expressions.rs line 137) reached e.g. by the modulus
operator, `func_expression`'s function `match` ends in an aborting
placeholder (line 654) reached e.g. by `STR`, and its arity checks are
aborting assertions (e.g. line 320) reached by a zero-argument `YEAR`. -/
theorem dispatch_catchalls_abort :
    binary_expression dispatchInput .Modulus "a" "b" "c0" =
      .aborted "reached the catch-all of the operator match" ∧
    func_expression dispatchInput .Str [] [] "c0" =
      .aborted "reached the catch-all of the function match" ∧
    func_expression dispatchInput .Year [] [] "c0" =
      .aborted "arity assertion failed" := by decide

/-- C4 (code bug): the section-3 invariant demands that the type map's key
set equal the relation's column set at every operator boundary, but `filter`
(graph_patterns.rs lines 42-51) drops the filter-expression context column
from the frame while leaving its entry in the type map: on an input
satisfying the invariant, the returned relation's type map retains the stale
`c0` entry while the frame no longer has a `c0` column. -/
theorem filter_breaks_type_map_invariant :
    typesMatchColumns filterInput = true ∧
    filter filterInput "c0" =
      .ok ⟨⟨["x"], [[("x", Cell.scalar (.int 1))]]⟩,
           [("x", RDFNodeType.Literal xsdInteger),
            ("c0", RDFNodeType.Literal xsdBoolean)]⟩ ∧
    typesMatchColumns
      ⟨⟨["x"], [[("x", Cell.scalar (.int 1))]]⟩,
       [("x", RDFNodeType.Literal xsdInteger),
        ("c0", RDFNodeType.Literal xsdBoolean)]⟩ = false := by decide

/-- With key-wise disjoint type maps the shared-column list is empty. -/
theorem sharedJoinOn_eq_nil {lt rt : TypeMap}
    (h : lt.keys.all (fun k => ¬ rt.keys.contains k) = true) :
    sharedJoinOn lt rt = [] := by
  unfold sharedJoinOn
  have hf : lt.keys.filter (fun k => rt.keys.contains k) = [] := by
    apply List.filter_eq_nil_iff.mpr
    intro a ha
    have := List.all_eq_true.mp h a ha
    simpa using this
  rw [hf]
  rfl

/-- C5: `minus` on relations whose variable-name sets are disjoint returns
the left relation itself — the very same rows, in the original order, with
the same type map (graph_patterns.rs lines 269-270). -/
theorem minus_disjoint_returns_left_unchanged
    (left right : SolutionMappings)
    (h : left.rdf_node_types.keys.all
      (fun k => ¬ right.rdf_node_types.keys.contains k) = true) :
    minus left right = .ok left := by
  simp [minus, sharedJoinOn_eq_nil h]

/-- Left input of the `minus` witness. -/
def minusLeftInput : SolutionMappings :=
  ⟨⟨["a"], [[("a", Cell.scalar (.int 1))], [("a", Cell.scalar (.int 2))]]⟩,
   [("a", RDFNodeType.Literal xsdInteger)]⟩

/-- Right input of the `minus` witness, sharing no variable with the left. -/
def minusRightInput : SolutionMappings :=
  ⟨⟨["b"], [[("b", Cell.scalar (.int 1))]]⟩,
   [("b", RDFNodeType.Literal xsdInteger)]⟩

/-- Witness for C5 at concrete disjoint relations. -/
theorem minus_disjoint_returns_left_unchanged_witness :
    minus minusLeftInput minusRightInput = .ok minusLeftInput :=
  minus_disjoint_returns_left_unchanged minusLeftInput minusRightInput (by decide)

/-- With key-wise disjoint type maps, the shared-column filter is empty. -/
theorem keys_filter_contains_eq_nil {lt rt : TypeMap}
    (h : lt.keys.all (fun k => ¬ rt.keys.contains k) = true) :
    lt.keys.filter (fun k => rt.keys.contains k) = [] := by
  apply List.filter_eq_nil_iff.mpr
  intro a ha
  have := List.all_eq_true.mp h a ha
  simpa using this

/-- With no shared columns, join-compatibility normalization is the
identity. -/
theorem create_join_compatible_disjoint (lm : DF) (lt : TypeMap) (rm : DF)
    (rt : TypeMap) (inner : Bool)
    (h : lt.keys.all (fun k => ¬ rt.keys.contains k) = true) :
    create_join_compatible_solution_mappings lm lt rm rt inner =
      (lm, lt, rm, rt) := by
  unfold create_join_compatible_solution_mappings
  rw [keys_filter_contains_eq_nil h]
  rfl

/-- Row count of a cross product. -/
theorem crossRows_length (a b : List Row) :
    (crossRows a b).length = a.length * b.length := by
  induction a with
  | nil => simp [crossRows]
  | cons x t ih => simp [crossRows, ih, Nat.succ_mul, Nat.add_comm]

/-- Row count of an operator's result, when it returns one. -/
def rowsCountOf : Outcome SolutionMappings → Option Nat
  | .ok sm => some sm.mappings.rows.length
  | _ => none

/-- C8: `join` of two relations with an empty shared-variable set falls back
to a cross product (graph_patterns.rs lines 131-137): the output row count
is the product of the input row counts. -/
theorem join_empty_shared_cross_product (left right : SolutionMappings)
    (h : left.rdf_node_types.keys.all
      (fun k => ¬ right.rdf_node_types.keys.contains k) = true) :
    rowsCountOf (join left right) =
      some (left.mappings.rows.length * right.mappings.rows.length) := by
  simp [join, sharedJoinOn_eq_nil h,
    create_join_compatible_disjoint _ _ _ _ _ h, rowsCountOf, DF.cross,
    crossRows_length]

/-- Witness for C8 at concrete disjoint relations: 2 rows times 1 row. -/
theorem join_empty_shared_cross_product_witness :
    rowsCountOf (join minusLeftInput minusRightInput) = some (2 * 1) :=
  join_empty_shared_cross_product minusLeftInput minusRightInput (by decide)

/-- Lookup of a key just set. -/
theorem Row.get_set_self (r : Row) (k : String) (v : Cell) :
    Row.get (Row.set r k v) k = v := by
  induction r with
  | nil => simp [Row.set, Row.get]
  | cons p t ih =>
    obtain ⟨k', v'⟩ := p
    by_cases h : k' = k
    · simp [Row.set, h, Row.get]
    · simp [Row.set, h, Row.get, ih]

/-- Dropping keys a column is not among does not change its value. -/
theorem Row.get_dropKeys_of_not_mem (r : Row) (ks : List String) (k : String)
    (h : ks.contains k = false) :
    Row.get (Row.dropKeys r ks) k = Row.get r k := by
  have hk : ¬ k ∈ ks := by simpa using h
  induction r with
  | nil => rfl
  | cons p t ih =>
    obtain ⟨k', v'⟩ := p
    by_cases hc : ks.contains k' = true
    · have hne : ¬ k' = k := by
        intro e
        subst e
        exact hk (by simpa using hc)
      rw [Row.dropKeys, if_pos hc, ih, Row.get, if_neg hne]
    · rw [Row.dropKeys, if_neg hc, Row.get, Row.get]
      by_cases he : k' = k
      · rw [if_pos he, if_pos he]
      · rw [if_neg he, if_neg he, ih]

/-- Dropping no keys is the identity. -/
theorem Row.dropKeys_nil (r : Row) : Row.dropKeys r [] = r := by
  induction r with
  | nil => rfl
  | cons p t ih =>
    obtain ⟨k', v'⟩ := p
    rw [Row.dropKeys, if_neg (by simp), ih]

/-- Lookup of a key just inserted. -/
theorem TypeMap.get_insert_self (m : TypeMap) (k : String) (v : RDFNodeType) :
    TypeMap.get (TypeMap.insert m k v) k = some v := by
  induction m with
  | nil => simp [TypeMap.insert, TypeMap.get]
  | cons p t ih =>
    obtain ⟨k', v'⟩ := p
    by_cases h : k' = k
    · simp [TypeMap.insert, h, TypeMap.get]
    · simp [TypeMap.insert, h, TypeMap.get, ih]

/-- Removing another key does not change a lookup. -/
theorem TypeMap.get_remove_ne (m : TypeMap) (k' k : String) (h : ¬ k' = k) :
    TypeMap.get (TypeMap.remove m k') k = TypeMap.get m k := by
  induction m with
  | nil => rfl
  | cons p t ih =>
    obtain ⟨k₁, v₁⟩ := p
    by_cases h1 : k₁ = k'
    · subst h1
      rw [TypeMap.remove, if_pos rfl, TypeMap.get, if_neg h]
    · rw [TypeMap.remove, if_neg h1, TypeMap.get, TypeMap.get]
      by_cases h2 : k₁ = k
      · rw [if_pos h2, if_pos h2]
      · rw [if_neg h2, if_neg h2, ih]

/-- Removing a list of other keys does not change a lookup. -/
theorem TypeMap.get_foldl_remove (ks : List String) (m : TypeMap) (k : String)
    (h : ks.contains k = false) :
    TypeMap.get (ks.foldl TypeMap.remove m) k = TypeMap.get m k := by
  induction ks generalizing m with
  | nil => simp
  | cons a t ih =>
    simp at h
    rw [List.foldl_cons, ih _ (by simpa using h.2),
      TypeMap.get_remove_ne _ _ _ (fun e => h.1 e.symm)]

/-- Spec-side construction (spec section 4.1, `IN` row of the type table):
the IN expression is "built as a left-fold disjunction of equality tests
against each candidate", starting from the literal false. -/
def inFoldSpec (left : String) (cands : List String) : Expr :=
  cands.foldl
    (fun acc cand =>
      Expr.BinaryExpr acc .Or (.BinaryExpr (.Col left) .Eq (.Col cand)))
    (.Literal (.boolean false))

/-- C9: `in_expression` appends under the node's context a column holding,
per row, exactly the evaluation of the spec's left-fold disjunction of
equality tests of the left operand against each candidate; its recorded
type is boolean; and with an empty candidate list every output row's value
is the literal false, independent of the left value
(expressions.rs lines 661-692). -/
theorem in_expression_semantics (sm : SolutionMappings)
    (left_context : String) (right_contexts : List String) (context : String)
    (h1 : ¬ context = left_context) (h2 : right_contexts.contains context = false) :
    ∃ sm', in_expression sm left_context right_contexts context = .ok sm' ∧
      TypeMap.get sm'.rdf_node_types context = some (.Literal xsdBoolean) ∧
      sm'.mappings.rows = sm.mappings.rows.map (fun r =>
        Row.dropKeys
          (Row.dropKeys
            (Row.set r context (evalExpr r (inFoldSpec left_context right_contexts)))
            [left_context])
          right_contexts) ∧
      (right_contexts = [] →
        ∀ r ∈ sm'.mappings.rows,
          Row.get r context = Cell.scalar (.boolean false)) := by
  refine ⟨_, rfl, ?_, ?_, ?_⟩
  · show TypeMap.get (right_contexts.foldl TypeMap.remove
      ([left_context].foldl TypeMap.remove
        (sm.rdf_node_types.insert context (.Literal xsdBoolean)))) context =
      some (.Literal xsdBoolean)
    rw [TypeMap.get_foldl_remove _ _ _ h2]
    simp [TypeMap.get_remove_ne _ _ _ (fun e => h1 e.symm),
      TypeMap.get_insert_self]
  · simp [in_expression, drop_inner_contexts, DF.drop, DF.with_column,
      List.map_map, inFoldSpec]
  · rintro rfl r hr
    simp [in_expression, drop_inner_contexts, DF.drop, DF.with_column,
      List.map_map] at hr
    obtain ⟨r0, _, rfl⟩ := hr
    rw [Row.dropKeys_nil,
      Row.get_dropKeys_of_not_mem _ _ _ (by simpa using h1),
      Row.get_set_self]
    rfl

/-- Spec-side division result type (spec section 8): double when the right
operand's recorded literal type is integer-family, otherwise the left
operand's type. -/
def divResultTypeSpec (L R : RDFNodeType) : RDFNodeType :=
  match R with
  | .Literal rl => if integerFamily.contains rl then .Literal xsdDouble else L
  | _ => L

/-- Relation for the concrete division scenario of the spec: integer columns
`l` = [10, 10] and `r` = [4, 4]. -/
def divInput : SolutionMappings :=
  ⟨⟨["l", "r"],
    [[("l", Cell.scalar (.int 10)), ("r", Cell.scalar (.int 4))],
     [("l", Cell.scalar (.int 10)), ("r", Cell.scalar (.int 4))]]⟩,
   [("l", RDFNodeType.Literal xsdInteger), ("r", RDFNodeType.Literal xsdInteger)]⟩

/-- C6: for every binary division, the recorded result type is double when
the right operand's recorded literal type is integer-family and the left
operand's type otherwise (expressions.rs lines 99-135); and on the spec's
concrete integer inputs left = [10,10], right = [4,4] the computed column is
[5/2, 5/2] (that is, [2.5, 2.5]) typed double. -/
theorem division_type_promotion_and_values :
    (∀ (sm : SolutionMappings) (l r c : String) (L R : RDFNodeType),
      TypeMap.get sm.rdf_node_types l = some L →
      TypeMap.get sm.rdf_node_types r = some R →
      ¬ c = l → ¬ c = r →
      ∃ sm', binary_expression sm .Divide l r c = .ok sm' ∧
        TypeMap.get sm'.rdf_node_types c = some (divResultTypeSpec L R)) ∧
    binary_expression divInput .Divide "l" "r" "c" =
      .ok ⟨⟨["c"],
            [[("c", Cell.scalar (.double (5 / 2)))],
             [("c", Cell.scalar (.double (5 / 2)))]]⟩,
           [("c", RDFNodeType.Literal xsdDouble)]⟩ := by
  constructor
  · intro sm l r c L R hl hr hcl hcr
    have hnc : ([l, r].contains c) = false := by simp [hcl, hcr]
    have key : binary_expression sm .Divide l r c =
        .ok (drop_inner_contexts
          ⟨sm.mappings.with_column (.BinaryExpr (.Col l) .Divide (.Col r)) c,
           sm.rdf_node_types.insert c (divResultTypeSpec L R)⟩ [l, r]) := by
      simp only [binary_expression, hl, hr]
      cases R with
      | Literal rl =>
        by_cases hint : rl ∈ integerFamily
        · simp [divResultTypeSpec, hint]
        · simp [divResultTypeSpec, hint]
      | IRI => simp [divResultTypeSpec]
      | BlankNode => simp [divResultTypeSpec]
      | MultiType ts => simp [divResultTypeSpec]
    refine ⟨_, key, ?_⟩
    show TypeMap.get
      ([l, r].foldl TypeMap.remove
        (sm.rdf_node_types.insert c (divResultTypeSpec L R))) c = _
    rw [TypeMap.get_foldl_remove _ _ _ hnc, TypeMap.get_insert_self]
  · simp [binary_expression, divInput, TypeMap.get, TypeMap.insert,
      TypeMap.remove, DF.with_column, DF.drop, drop_inner_contexts, evalExpr,
      evalBinOp, Row.set, Row.get, Row.dropKeys, drop_inner_contexts,
      integerFamily, xsdInteger, xsdInt, xsdLong, xsdByte, xsdShort,
      xsdUnsignedInt, xsdUnsignedLong, xsdUnsignedByte, xsdUnsignedShort,
      xsdDouble]
    norm_num

/-- Witness for C6 at the concrete integer relation. -/
theorem division_type_promotion_and_values_witness :
    ∃ sm', binary_expression divInput .Divide "l" "r" "c" = .ok sm' ∧
      TypeMap.get sm'.rdf_node_types "c" =
        some (divResultTypeSpec (.Literal xsdInteger) (.Literal xsdInteger)) :=
  division_type_promotion_and_values.1 divInput "l" "r" "c"
    (.Literal xsdInteger) (.Literal xsdInteger)
    (by decide) (by decide) (by decide) (by decide)

/-- Stable deduplication preserves membership. -/
theorem mem_dedupKeepFirst (x : Row) (l : List Row) :
    x ∈ dedupKeepFirst l ↔ x ∈ l := by
  induction l with
  | nil => simp [dedupKeepFirst]
  | cons a t ih =>
    by_cases hx : x = a
    · subst hx
      simp [dedupKeepFirst]
    · simp [dedupKeepFirst, hx, ih]

/-- The membership boolean `exists` computes per outer row: any row of the
deduplicated single-column probe matches exactly when some inner row's key
cell equals the outer row's key cell. -/
theorem exists_ser_eq (rows : List Row) (ec : String) (r : Row) :
    ((dedupKeepFirst (rows.map (fun r0 => [(ec, Row.get r0 ec)]))).any
        (fun er => Row.get er ec = Row.get r ec)) =
      decide (∃ er ∈ rows, Row.get er ec = Row.get r ec) := by
  have h : ∀ (b : Bool) (p : Prop) [Decidable p],
      ((b = true) ↔ p) → b = decide p := by
    intro b p hp hiff
    by_cases hb : p
    · simp [hb, hiff.mpr hb]
    · rcases Bool.eq_false_or_eq_true b with h1 | h1
      · exact absurd (hiff.mp h1) hb
      · simp [hb, h1]
  apply h
  rw [List.any_eq_true]
  constructor
  · rintro ⟨er, hmem, heq⟩
    rw [mem_dedupKeepFirst] at hmem
    obtain ⟨r0, hr0, rfl⟩ := List.mem_map.mp hmem
    refine ⟨r0, hr0, ?_⟩
    simpa [Row.get] using heq
  · rintro ⟨er, hmem, heq⟩
    refine ⟨[(ec, Row.get er ec)], ?_, ?_⟩
    · rw [mem_dedupKeepFirst]
      exact List.mem_map.mpr ⟨er, hmem, rfl⟩
    · simpa [Row.get] using heq

/-- Zipping a row list with a column computed from itself is a map. -/
theorem zipWith_set_map (rows : List Row) (c : String) (f : Row → Cell) :
    rows.zipWith (fun r v => Row.set r c v) (rows.map f) =
      rows.map (fun r => Row.set r c (f r)) := by
  induction rows with
  | nil => rfl
  | cons a t ih => simp [ih]

/-- C7: `exists` (expressions.rs lines 280-309) marks an outer row true
exactly when some row of the deduplicated inner probe matches its
exists-context key (the column in which the caller materializes the shared
columns), and replacing the inner relation by one with the same row SET —
in particular, duplicating inner rows — never changes the result. -/
theorem exists_membership_semantics (sm : SolutionMappings) (inner : DF)
    (exists_context context : String) :
    ∃ sm', existsExpr sm inner exists_context context = .ok sm' ∧
      sm'.mappings.rows = sm.mappings.rows.map (fun r =>
        Row.dropKeys
          (Row.set r context (Cell.scalar (.boolean
            (decide (∃ er ∈ inner.rows,
              Row.get er exists_context = Row.get r exists_context)))))
          [exists_context]) ∧
      (∀ inner2 : DF, (∀ x, x ∈ inner2.rows ↔ x ∈ inner.rows) →
        existsExpr sm inner2 exists_context context =
          existsExpr sm inner exists_context context) := by
  have hser : ∀ (i : DF),
      (sm.mappings.rows.map (fun r =>
        Cell.scalar (.boolean (((i.select [exists_context]).unique_stable).rows.any
          (fun er => Row.get er exists_context = Row.get r exists_context))))) =
      (sm.mappings.rows.map (fun r =>
        Cell.scalar (.boolean (decide (∃ er ∈ i.rows,
          Row.get er exists_context = Row.get r exists_context))))) := by
    intro i
    apply List.map_congr_left
    intro r _
    simp only [DF.select, DF.unique_stable, List.map_cons, List.map_nil]
    rw [exists_ser_eq i.rows exists_context r]
  refine ⟨_, rfl, ?_, ?_⟩
  · simp only [existsExpr, drop_inner_contexts, DF.drop, DF.with_series]
    rw [hser inner, zipWith_set_map, List.map_map]
    apply List.map_congr_left
    intro r _
    rfl
  · intro inner2 hmem
    have hs :
        (sm.mappings.rows.map (fun r =>
          Cell.scalar (.boolean (((inner2.select [exists_context]).unique_stable).rows.any
            (fun er => Row.get er exists_context = Row.get r exists_context))))) =
        (sm.mappings.rows.map (fun r =>
          Cell.scalar (.boolean (((inner.select [exists_context]).unique_stable).rows.any
            (fun er => Row.get er exists_context = Row.get r exists_context))))) := by
      rw [hser inner2, hser inner]
      apply List.map_congr_left
      intro r _
      have hiff : (∃ er ∈ inner2.rows,
          Row.get er exists_context = Row.get r exists_context) ↔
          (∃ er ∈ inner.rows,
            Row.get er exists_context = Row.get r exists_context) :=
        exists_congr (fun er => and_congr_left' (hmem er))
      simp [hiff]
    simp only [existsExpr]
    rw [hs]

/-- Outer relation of the EXISTS witness. -/
def existsOuterInput : SolutionMappings :=
  ⟨⟨["k"], [[("k", Cell.scalar (.int 1))], [("k", Cell.scalar (.int 2))]]⟩,
   [("k", RDFNodeType.Literal xsdInteger)]⟩

/-- Inner probe of the EXISTS witness. -/
def existsInnerInput : DF := ⟨["k"], [[("k", Cell.scalar (.int 1))]]⟩

/-- The same inner probe with its row duplicated. -/
def existsInnerDupInput : DF :=
  ⟨["k"], [[("k", Cell.scalar (.int 1))], [("k", Cell.scalar (.int 1))]]⟩

/-- Witness for C7: duplicating the inner pattern's row leaves the EXISTS
result unchanged at a concrete input. -/
theorem exists_membership_semantics_witness :
    existsExpr existsOuterInput existsInnerDupInput "k" "e" =
      existsExpr existsOuterInput existsInnerInput "k" "e" := by
  obtain ⟨sm', _, _, h3⟩ :=
    exists_membership_semantics existsOuterInput existsInnerInput "k" "e"
  exact h3 existsInnerDupInput (by intro x; simp [existsInnerDupInput, existsInnerInput])

/-- Membership through the insertion step. -/
theorem mem_insertSorted (le : Row → Row → Bool) (a x : Row) (l : List Row) :
    x ∈ insertSorted le a l ↔ x = a ∨ x ∈ l := by
  induction l with
  | nil => simp [insertSorted]
  | cons b t ih =>
    rw [insertSorted]
    by_cases h : le a b = true
    · rw [if_pos h]
      simp [List.mem_cons]
    · rw [if_neg h]
      simp only [List.mem_cons, ih]
      tauto

/-- Membership through the insertion sort. -/
theorem mem_sortByC (le : Row → Row → Bool) (x : Row) (l : List Row) :
    x ∈ sortByC le l ↔ x ∈ l := by
  induction l with
  | nil => simp [sortByC]
  | cons a t ih =>
    rw [sortByC, mem_insertSorted, ih, List.mem_cons]

/-- Lists with the same members have the same `any`. -/
theorem any_eq_of_mem_iff {l l' : List Row} (h : ∀ x, x ∈ l ↔ x ∈ l')
    (p : Row → Bool) : l.any p = l'.any p := by
  rcases hb : l'.any p with _ | _
  · rcases hc : l.any p with _ | _
    · rfl
    · obtain ⟨x, hx, hpx⟩ := List.any_eq_true.mp hc
      have : l'.any p = true := List.any_eq_true.mpr ⟨x, (h x).mp hx, hpx⟩
      rw [hb] at this
      exact absurd this (by simp)
  · obtain ⟨x, hx, hpx⟩ := List.any_eq_true.mp hb
    exact List.any_eq_true.mpr ⟨x, (h x).mpr hx, hpx⟩

/-- Inserting into a sorted list keeps it sorted, for a comparator that
decides the order of sort keys drawn from a linear order. -/
theorem pairwise_insertSorted {γ : Type} [LinearOrder γ] (f : Row → γ)
    (le : Row → Row → Bool) (hle : ∀ x y, le x y = true ↔ f x ≤ f y)
    (a : Row) (l : List Row) (h : l.Pairwise (fun x y => le x y = true)) :
    (insertSorted le a l).Pairwise (fun x y => le x y = true) := by
  induction l with
  | nil => simp [insertSorted]
  | cons b t ih =>
    rw [insertSorted]
    rcases List.pairwise_cons.mp h with ⟨hb, ht⟩
    by_cases hab : le a b = true
    · rw [if_pos hab]
      refine List.pairwise_cons.mpr ⟨?_, h⟩
      intro x hx
      rcases List.mem_cons.mp hx with rfl | hx
      · exact hab
      · exact (hle a x).mpr (le_trans ((hle a b).mp hab) ((hle b x).mp (hb x hx)))
    · rw [if_neg hab]
      refine List.pairwise_cons.mpr ⟨?_, ih ht⟩
      intro x hx
      rcases (mem_insertSorted le a x t).mp hx with rfl | hx
      · exact (hle b x).mpr (le_of_not_le (fun hc => hab ((hle x b).mpr hc)))
      · exact hb x hx

/-- The insertion sort is sorted with respect to its comparator. -/
theorem pairwise_sortByC {γ : Type} [LinearOrder γ] (f : Row → γ)
    (le : Row → Row → Bool) (hle : ∀ x y, le x y = true ↔ f x ≤ f y)
    (l : List Row) :
    (sortByC le l).Pairwise (fun x y => le x y = true) := by
  induction l with
  | nil => simp [sortByC]
  | cons a t ih =>
    rw [sortByC]
    exact pairwise_insertSorted f le hle a _ ih

/-- The row comparator decides the lexicographic order of row sort keys. -/
theorem rowLe_iff (keys : List String) (x y : Row) :
    rowLe keys x y = true ↔ encRow keys x ≤ encRow keys y := by
  simp [rowLe]

/-- The string-recoding fold of `minus` (spec: a semantic no-op) is the
identity. -/
theorem castFold_id (l : List String) (m : TypeMap) (df : DF) :
    (l.foldl
      (fun df c =>
        match TypeMap.get m c with
        | some dt => if is_string_col dt then castCategorical df c else df
        | none => df)
      df) = df := by
  induction l generalizing df with
  | nil => rfl
  | cons a t ih =>
    rw [List.foldl_cons]
    have hstep : (match TypeMap.get m a with
        | some dt => if is_string_col dt then castCategorical df a else df
        | none => df) = df := by
      rcases TypeMap.get m a with _ | dt
      · rfl
      · show (if is_string_col dt then castCategorical df a else df) = df
        split <;> rfl
    rw [hstep]
    exact ih df

/-- C10: with a non-empty shared-variable set, `minus`
(graph_patterns.rs lines 282-302) sorts both inputs ascending by the sorted
shared columns before the anti-join: the surviving left rows come out as
the ascending key-sorted left relation filtered against the right rows —
ordered by the shared columns' values, not in the left relation's original
row order — and the output row list is sorted by the shared-column keys. -/
theorem minus_sorts_by_shared_columns (left right : SolutionMappings)
    (h : ¬ sharedJoinOn left.rdf_node_types right.rdf_node_types = []) :
    ∃ sm', minus left right = .ok sm' ∧
      sm'.rdf_node_types = left.rdf_node_types ∧
      sm'.mappings.rows =
        (sortByC (rowLe (sharedJoinOn left.rdf_node_types right.rdf_node_types))
            left.mappings.rows).filter
          (fun lr => ¬ right.mappings.rows.any
            (fun rr =>
              rowsMatch (sharedJoinOn left.rdf_node_types right.rdf_node_types)
                lr rr)) ∧
      sm'.mappings.rows.Pairwise
        (fun a b =>
          rowLe (sharedJoinOn left.rdf_node_types right.rdf_node_types) a b =
            true) := by
  refine ⟨{ left with mappings :=
      (antiJoin
        (DF.sort_by left.mappings
          (sharedJoinOn left.rdf_node_types right.rdf_node_types))
        (DF.sort_by right.mappings
          (sharedJoinOn left.rdf_node_types right.rdf_node_types))
        (sharedJoinOn left.rdf_node_types right.rdf_node_types)) },
    ?_, rfl, ?_, ?_⟩
  · simp only [minus]
    rw [if_neg h, castFold_id, castFold_id]
  · show (antiJoin _ _ _).rows = _
    rw [antiJoin, DF.sort_by, DF.sort_by]
    apply List.filter_congr
    intro x _
    have hany := any_eq_of_mem_iff
      (fun y => mem_sortByC
        (rowLe (sharedJoinOn left.rdf_node_types right.rdf_node_types)) y
        right.mappings.rows)
      (fun rr =>
        rowsMatch (sharedJoinOn left.rdf_node_types right.rdf_node_types) x rr)
    rw [hany]
  · show ((antiJoin _ _ _).rows).Pairwise _
    rw [antiJoin, DF.sort_by]
    exact List.Pairwise.sublist (List.filter_sublist _)
      (pairwise_sortByC
        (encRow (sharedJoinOn left.rdf_node_types right.rdf_node_types))
        (rowLe (sharedJoinOn left.rdf_node_types right.rdf_node_types))
        (rowLe_iff _) _)

/-- Right input of the C10 witness, sharing the variable `a` with the C5
witness's left relation. -/
def minusSharedRightInput : SolutionMappings :=
  ⟨⟨["a"], [[("a", Cell.scalar (.int 1))]]⟩,
   [("a", RDFNodeType.Literal xsdInteger)]⟩

/-- Witness for C10 at concrete relations sharing one variable. -/
theorem minus_sorts_by_shared_columns_witness :
    ∃ sm', minus minusLeftInput minusSharedRightInput = .ok sm' ∧
      sm'.rdf_node_types = minusLeftInput.rdf_node_types ∧
      sm'.mappings.rows =
        (sortByC
            (rowLe (sharedJoinOn minusLeftInput.rdf_node_types
              minusSharedRightInput.rdf_node_types))
            minusLeftInput.mappings.rows).filter
          (fun lr => ¬ minusSharedRightInput.mappings.rows.any
            (fun rr =>
              rowsMatch (sharedJoinOn minusLeftInput.rdf_node_types
                minusSharedRightInput.rdf_node_types) lr rr)) ∧
      sm'.mappings.rows.Pairwise
        (fun a b =>
          rowLe (sharedJoinOn minusLeftInput.rdf_node_types
            minusSharedRightInput.rdf_node_types) a b = true) :=
  minus_sorts_by_shared_columns minusLeftInput minusSharedRightInput (by decide)

/-- Scalar test on a physical cell: true for scalar values, false for
multitype struct cells. -/
def Cell.isScalar : Cell → Bool
  | .scalar _ => true
  | .multi _ => false

/-- A scalar cell is recovered from its scalar view. -/
theorem scalar_asScalar {x : Cell} (h : x.isScalar = true) :
    Cell.scalar x.asScalar = x := by
  cases x with
  | scalar v => rfl
  | multi fs => simp [Cell.isScalar] at h

/-- Key-presence test on a row (a cell may be present and null; absence and
null cells both read as null through `Row.get`). -/
def Row.hasKey (r : Row) (k : String) : Bool := r.any (fun p => p.1 = k)

/-- Unfolding equation for key presence. -/
theorem Row.hasKey_cons (k' : String) (v' : Cell) (t : Row) (k : String) :
    Row.hasKey ((k', v') :: t) k = (decide (k' = k) || Row.hasKey t k) := rfl

/-- A key that is not present reads as null. -/
theorem Row.get_of_hasKey_false {r : Row} {k : String}
    (h : Row.hasKey r k = false) : Row.get r k = Cell.scalar .null := by
  induction r with
  | nil => rfl
  | cons p t ih =>
    obtain ⟨k', v'⟩ := p
    rw [Row.hasKey_cons] at h
    rcases Bool.or_eq_false_iff.mp h with ⟨ha, hb⟩
    rw [Row.get, if_neg (by simpa using ha)]
    exact ih hb

/-- Setting another key does not change a lookup. -/
theorem Row.get_set_ne (r : Row) (x k : String) (v : Cell) (h : ¬ x = k) :
    Row.get (Row.set r x v) k = Row.get r k := by
  induction r with
  | nil => simp [Row.set, Row.get, h]
  | cons p t ih =>
    obtain ⟨k', v'⟩ := p
    by_cases h1 : k' = x
    · subst h1
      rw [Row.set, if_pos rfl, Row.get, Row.get, if_neg h]
      by_cases h2 : k' = k
      · exact absurd h2 h
      · rw [if_neg h2]
    · rw [Row.set, if_neg h1, Row.get, Row.get]
      by_cases h2 : k' = k
      · rw [if_pos h2, if_pos h2]
      · rw [if_neg h2, if_neg h2, ih]

/-- Setting another key does not change key presence. -/
theorem Row.hasKey_set_ne (r : Row) (x k : String) (v : Cell) (h : ¬ x = k) :
    Row.hasKey (Row.set r x v) k = Row.hasKey r k := by
  induction r with
  | nil =>
    rw [Row.set, Row.hasKey_cons]
    simp [Row.hasKey, h]
  | cons p t ih =>
    obtain ⟨k', v'⟩ := p
    by_cases h1 : k' = x
    · subst h1
      rw [Row.set, if_pos rfl, Row.hasKey_cons, Row.hasKey_cons]
    · rw [Row.set, if_neg h1, Row.hasKey_cons, Row.hasKey_cons, ih]

/-- Key presence distributes over row concatenation. -/
theorem Row.hasKey_append (l1 l2 : Row) (k : String) :
    Row.hasKey (l1 ++ l2) k = (Row.hasKey l1 k || Row.hasKey l2 k) := by
  simp [Row.hasKey]

/-- A lookup in a concatenation whose left part lacks the key falls through
to the right part. -/
theorem Row.get_append_of_hasKey_false (l1 l2 : Row) (k : String)
    (h : Row.hasKey l1 k = false) :
    Row.get (l1 ++ l2) k = Row.get l2 k := by
  induction l1 with
  | nil => rfl
  | cons p t ih =>
    obtain ⟨k', v'⟩ := p
    rw [Row.hasKey_cons] at h
    rcases Bool.or_eq_false_iff.mp h with ⟨ha, hb⟩
    rw [List.cons_append, Row.get, if_neg (by simpa using ha)]
    exact ih hb

/-- A lookup in a concatenation whose right part avoids the key is a lookup
in the left part. -/
theorem Row.get_append_of_avoid (l1 l2 : Row) (k : String)
    (h : ∀ p ∈ l2, ¬ p.1 = k) :
    Row.get (l1 ++ l2) k = Row.get l1 k := by
  induction l1 with
  | nil =>
    rw [List.nil_append]
    show Row.get l2 k = Row.get [] k
    rw [Row.get_of_hasKey_false]
    · rfl
    · rcases hb : Row.hasKey l2 k with _ | _
      · rfl
      · exfalso
        rw [Row.hasKey, List.any_eq_true] at hb
        obtain ⟨p, hp, hpk⟩ := hb
        exact h p hp (by simpa using hpk)
  | cons p t ih =>
    obtain ⟨k', v'⟩ := p
    rw [List.cons_append, Row.get, Row.get]
    by_cases h2 : k' = k
    · rw [if_pos h2, if_pos h2]
    · rw [if_neg h2, if_neg h2, ih]

/-- Dropping keys never introduces a key. -/
theorem Row.hasKey_dropKeys_mono (r : Row) (ks : List String) (k : String)
    (h : Row.hasKey r k = false) :
    Row.hasKey (Row.dropKeys r ks) k = false := by
  induction r with
  | nil => rfl
  | cons p t ih =>
    obtain ⟨k', v'⟩ := p
    rw [Row.hasKey_cons] at h
    rcases Bool.or_eq_false_iff.mp h with ⟨ha, hb⟩
    rw [Row.dropKeys]
    by_cases hc : ks.contains k' = true
    · rw [if_pos hc]
      exact ih hb
    · rw [if_neg hc, Row.hasKey_cons, ha, ih hb]
      rfl

/-- A dropped key is not present afterwards. -/
theorem Row.hasKey_dropKeys_of_mem (r : Row) (ks : List String) (k : String)
    (h : ks.contains k = true) :
    Row.hasKey (Row.dropKeys r ks) k = false := by
  induction r with
  | nil => rfl
  | cons p t ih =>
    obtain ⟨k', v'⟩ := p
    rw [Row.dropKeys]
    by_cases hc : ks.contains k' = true
    · rw [if_pos hc]
      exact ih
    · have hne : ¬ k' = k := fun e => hc (e ▸ h)
      rw [if_neg hc, Row.hasKey_cons, ih]
      simp [hne]

/-- Dropping keys a column is not among does not change its presence. -/
theorem Row.hasKey_dropKeys_of_not_mem (r : Row) (ks : List String)
    (k : String) (h : ks.contains k = false) :
    Row.hasKey (Row.dropKeys r ks) k = Row.hasKey r k := by
  induction r with
  | nil => rfl
  | cons p t ih =>
    obtain ⟨k', v'⟩ := p
    rw [Row.dropKeys]
    by_cases hc : ks.contains k' = true
    · have hne : ¬ k' = k := fun e => by rw [e] at hc; rw [hc] at h; cases h
      rw [if_pos hc, ih, Row.hasKey_cons]
      simp [hne]
    · rw [if_neg hc, Row.hasKey_cons, Row.hasKey_cons, ih]

/-- A key with an entry is among the keys. -/
theorem TypeMap.mem_keys_of_get {m : TypeMap} {k : String} {v : RDFNodeType}
    (h : TypeMap.get m k = some v) : k ∈ m.keys := by
  induction m with
  | nil => cases h
  | cons p t ih =>
    obtain ⟨k', v'⟩ := p
    rw [TypeMap.get] at h
    by_cases h1 : k' = k
    · simp [TypeMap.keys, h1]
    · rw [if_neg h1] at h
      simp [TypeMap.keys]
      right
      simpa [TypeMap.keys] using ih h

/-- An absent key looks up to nothing. -/
theorem TypeMap.get_eq_none_of_not_mem {m : TypeMap} {k : String}
    (h : ¬ k ∈ m.keys) : TypeMap.get m k = none := by
  induction m with
  | nil => rfl
  | cons p t ih =>
    obtain ⟨k', v'⟩ := p
    simp [TypeMap.keys] at h
    rw [TypeMap.get, if_neg (fun e => h.1 e.symm)]
    exact ih (by simp [TypeMap.keys]; exact h.2)

/-- A present lookup is unchanged by appending entries. -/
theorem TypeMap.get_append_of_some {m1 : TypeMap} {k : String}
    {v : RDFNodeType} (m2 : TypeMap) (h : TypeMap.get m1 k = some v) :
    TypeMap.get (m1 ++ m2) k = some v := by
  induction m1 with
  | nil => cases h
  | cons p t ih =>
    obtain ⟨k', v'⟩ := p
    rw [TypeMap.get] at h
    rw [List.cons_append, TypeMap.get]
    by_cases h1 : k' = k
    · rw [if_pos h1] at h ⊢
      exact h
    · rw [if_neg h1] at h ⊢
      exact ih h

/-- A lookup after missing left entries falls through to the right part. -/
theorem TypeMap.get_append_of_none {m1 : TypeMap} {k : String} (m2 : TypeMap)
    (h : TypeMap.get m1 k = none) :
    TypeMap.get (m1 ++ m2) k = TypeMap.get m2 k := by
  induction m1 with
  | nil => rfl
  | cons p t ih =>
    obtain ⟨k', v'⟩ := p
    rw [TypeMap.get] at h
    by_cases h1 : k' = k
    · rw [if_pos h1] at h
      cases h
    · rw [if_neg h1] at h
      rw [List.cons_append, TypeMap.get, if_neg h1]
      exact ih h

/-- Key list of a consed map. -/
theorem TypeMap.keys_cons (k1 : String) (v1 : RDFNodeType) (t : TypeMap) :
    TypeMap.keys ((k1, v1) :: t) = k1 :: TypeMap.keys t := rfl

/-- Keys after an insert are the old keys or the inserted key. -/
theorem TypeMap.mem_keys_insert {k k' : String} {v : RDFNodeType} :
    ∀ {m : TypeMap}, k' ∈ (TypeMap.insert m k v).keys → k' ∈ m.keys ∨ k' = k := by
  intro m
  induction m with
  | nil =>
    intro h
    rw [TypeMap.insert, TypeMap.keys_cons] at h
    rcases List.mem_cons.mp h with rfl | h2
    · exact Or.inr rfl
    · simp [TypeMap.keys] at h2
  | cons p t ih =>
    obtain ⟨k1, v1⟩ := p
    intro h
    rw [TypeMap.insert] at h
    by_cases h1 : k1 = k
    · rw [if_pos h1, TypeMap.keys_cons] at h
      rcases List.mem_cons.mp h with rfl | h2
      · exact Or.inr rfl
      · exact Or.inl (by rw [TypeMap.keys_cons]; exact List.mem_cons_of_mem _ h2)
    · rw [if_neg h1, TypeMap.keys_cons] at h
      rcases List.mem_cons.mp h with rfl | h2
      · exact Or.inl (by rw [TypeMap.keys_cons]; exact List.mem_cons_self _ _)
      · rcases ih h2 with h3 | h3
        · exact Or.inl (by rw [TypeMap.keys_cons]; exact List.mem_cons_of_mem _ h3)
        · exact Or.inr h3

/-- Inserting preserves key uniqueness. -/
theorem TypeMap.nodup_keys_insert {k : String} {v : RDFNodeType} :
    ∀ {m : TypeMap}, m.keys.Nodup → (TypeMap.insert m k v).keys.Nodup := by
  intro m
  induction m with
  | nil =>
    intro _
    simp [TypeMap.insert, TypeMap.keys]
  | cons p t ih =>
    obtain ⟨k1, v1⟩ := p
    intro h
    rw [TypeMap.keys_cons] at h
    rcases List.nodup_cons.mp h with ⟨hk1, ht⟩
    rw [TypeMap.insert]
    by_cases h1 : k1 = k
    · subst h1
      rw [if_pos rfl, TypeMap.keys_cons]
      exact List.nodup_cons.mpr ⟨hk1, ht⟩
    · rw [if_neg h1, TypeMap.keys_cons]
      refine List.nodup_cons.mpr ⟨?_, ih ht⟩
      intro hmem
      rcases TypeMap.mem_keys_insert hmem with h2 | h2
      · exact hk1 h2
      · exact h1 h2

/-- Splitting a unique-keyed map at a present key. -/
theorem TypeMap.get_split {k : String} {v : RDFNodeType} :
    ∀ {m : TypeMap}, m.keys.Nodup → TypeMap.get m k = some v →
      ∃ pre post, m = pre ++ (k, v) :: post ∧
        (∀ e ∈ pre, ¬ e.1 = k) ∧ (∀ e ∈ post, ¬ e.1 = k) := by
  intro m
  induction m with
  | nil => intro _ h; cases h
  | cons p t ih =>
    obtain ⟨k1, v1⟩ := p
    intro hnd h
    rw [TypeMap.keys_cons] at hnd
    rcases List.nodup_cons.mp hnd with ⟨hk1, ht⟩
    rw [TypeMap.get] at h
    by_cases h1 : k1 = k
    · subst h1
      rw [if_pos rfl] at h
      obtain rfl : v1 = v := by injection h
      refine ⟨[], t, rfl, by simp, ?_⟩
      intro e he hek
      exact hk1 (hek ▸ List.mem_map_of_mem (·.1) he)
    · rw [if_neg h1] at h
      obtain ⟨pre, post, heq, hpre, hpost⟩ := ih ht h
      refine ⟨(k1, v1) :: pre, post, by rw [heq, List.cons_append], ?_, hpost⟩
      intro e he
      rcases List.mem_cons.mp he with rfl | he2
      · exact h1
      · exact hpre e he2

/-- Prefix test on character lists. -/
def startsWithChars : List Char → List Char → Bool
  | _, [] => true
  | [], _ :: _ => false
  | a :: as, b :: bs => a = b && startsWithChars as bs

/-- Substring-occurrence test on character lists. -/
def containsChars : List Char → List Char → Bool
  | [], pat => pat.isEmpty
  | l@(_ :: as), pat => startsWithChars l pat || containsChars as pat

/-- A column name is qualifier-free when it does not contain the sub-column
qualifier `<>` that `prefixedName` inserts. The engine's struct-field
namespacing guarantees this for every real column name (spec section 4.4:
sub-columns are "qualified to avoid name collision"). -/
def sepFree (s : String) : Bool := ¬ containsChars s.data ['<', '>']

/-- A list starts with its own prefix. -/
theorem startsWithChars_append (pat l : List Char) :
    startsWithChars (pat ++ l) pat = true := by
  induction pat with
  | nil => cases l <;> rfl
  | cons a as ih => simp [startsWithChars, ih]

/-- A pattern planted in the middle of a list is found. -/
theorem containsChars_planted (l1 pat l2 : List Char) :
    containsChars (l1 ++ (pat ++ l2)) pat = true := by
  induction l1 with
  | nil =>
    cases hp : pat with
    | nil =>
      cases l2 with
      | nil => rfl
      | cons b bs => simp [containsChars, startsWithChars]
    | cons a as =>
      rw [List.nil_append, ← hp]
      cases hq : pat ++ l2 with
      | nil =>
        rcases List.append_eq_nil.mp hq with ⟨h1, _⟩
        rw [hp] at h1
        cases h1
      | cons b bs =>
        rw [containsChars, ← hq, startsWithChars_append]
        rfl
  | cons a as ih =>
    rw [List.cons_append, containsChars, ih]
    simp

/-- Qualified sub-column names are never qualifier-free. -/
theorem prefixedName_not_sepFree (x : String) (t : BaseRDFNodeType) :
    sepFree (prefixedName x t) = false := by
  have hd : (prefixedName x t).data =
      x.data ++ (['<', '>'] ++ t.fieldName.data) := by
    rw [prefixedName, String.data_append, String.data_append,
      List.append_assoc]
  have hc : containsChars (prefixedName x t).data ['<', '>'] = true := by
    rw [hd]
    exact containsChars_planted x.data ['<', '>'] t.fieldName.data
  rw [sepFree]
  simp [hc]

/-- A qualifier-free name never equals a qualified sub-column name. -/
theorem sepFree_ne_prefixedName {k : String} (h : sepFree k = true)
    (x : String) (t : BaseRDFNodeType) : ¬ k = prefixedName x t := by
  intro e
  rw [e, prefixedName_not_sepFree] at h
  cases h

/-- Qualifier-freeness passes to the tail of the character list. -/
theorem containsChars_tail {a : Char} {as pat : List Char}
    (h : containsChars (a :: as) pat = false) :
    containsChars as pat = false := by
  rw [containsChars] at h
  exact (Bool.or_eq_false_iff.mp h).2

/-- Unique parse of a qualified name: if two qualifier-free bases followed by
the qualifier and arbitrary tails agree, the bases and tails agree. -/
theorem sep_parse : ∀ (x y u v : List Char),
    containsChars x ['<', '>'] = false →
    containsChars y ['<', '>'] = false →
    x ++ ('<' :: '>' :: u) = y ++ ('<' :: '>' :: v) →
    x = y ∧ u = v := by
  intro x
  induction x with
  | nil =>
    intro y u v _ hy he
    cases y with
    | nil =>
      constructor
      · rfl
      · simpa using he
    | cons b bs =>
      exfalso
      rw [List.nil_append, List.cons_append] at he
      obtain ⟨hb, he2⟩ := List.cons.inj he
      cases bs with
      | nil =>
        simp at he2
      | cons b2 bs2 =>
        rw [List.cons_append] at he2
        obtain ⟨hb2, _⟩ := List.cons.inj he2
        subst hb
        subst hb2
        rw [containsChars, startsWithChars] at hy
        simp [startsWithChars] at hy
  | cons a as ih =>
    intro y u v hx hy he
    cases y with
    | nil =>
      exfalso
      rw [List.nil_append, List.cons_append] at he
      obtain ⟨hb, he2⟩ := List.cons.inj he
      cases as with
      | nil =>
        simp at he2
      | cons a2 as2 =>
        rw [List.cons_append] at he2
        obtain ⟨hb2, _⟩ := List.cons.inj he2
        subst hb
        subst hb2
        rw [containsChars, startsWithChars] at hx
        simp [startsWithChars] at hx
    | cons b bs =>
      rw [List.cons_append, List.cons_append] at he
      obtain ⟨hb, he2⟩ := List.cons.inj he
      obtain ⟨h1, h2⟩ := ih bs u v (containsChars_tail hx) (containsChars_tail hy) he2
      exact ⟨by rw [hb, h1], h2⟩

/-- Embedding a base type into `RDFNodeType` is injective. -/
theorem as_rdf_node_type_inj {A B : BaseRDFNodeType}
    (h : A.as_rdf_node_type = B.as_rdf_node_type) : A = B := by
  cases A <;> cases B <;> simp_all [BaseRDFNodeType.as_rdf_node_type]

/-- The base view of an embedded base type is itself. -/
theorem from_as (A : BaseRDFNodeType) :
    BaseRDFNodeType.from_rdf_node_type (A.as_rdf_node_type) = A := by
  cases A <;> rfl

/-- Sub-column field names of distinct base types are distinct. -/
theorem fieldName_inj : ∀ {A B : BaseRDFNodeType},
    A.fieldName = B.fieldName → A = B := by
  intro A B h
  cases A <;> cases B
  case IRI.IRI => rfl
  case IRI.BlankNode => exact absurd h (by decide)
  case IRI.Literal d =>
    exfalso
    have hd := congrArg String.data h
    simp only [BaseRDFNodeType.fieldName] at hd
    rw [String.data_append] at hd
    simp [show "I".data = ['I'] from rfl, show "L".data = ['L'] from rfl] at hd
  case BlankNode.IRI => exact absurd h (by decide)
  case BlankNode.BlankNode => rfl
  case BlankNode.Literal d =>
    exfalso
    have hd := congrArg String.data h
    simp only [BaseRDFNodeType.fieldName] at hd
    rw [String.data_append] at hd
    simp [show "B".data = ['B'] from rfl, show "L".data = ['L'] from rfl] at hd
  case Literal.IRI d =>
    exfalso
    have hd := congrArg String.data h
    simp only [BaseRDFNodeType.fieldName] at hd
    rw [String.data_append] at hd
    simp [show "I".data = ['I'] from rfl, show "L".data = ['L'] from rfl] at hd
  case Literal.BlankNode d =>
    exfalso
    have hd := congrArg String.data h
    simp only [BaseRDFNodeType.fieldName] at hd
    rw [String.data_append] at hd
    simp [show "B".data = ['B'] from rfl, show "L".data = ['L'] from rfl] at hd
  case Literal.Literal d1 d2 =>
    have hd := congrArg String.data h
    simp only [BaseRDFNodeType.fieldName] at hd
    rw [String.data_append, String.data_append] at hd
    simp only [show "L".data = ['L'] from rfl, List.cons_append,
      List.nil_append, List.cons.injEq, true_and] at hd
    exact congrArg BaseRDFNodeType.Literal (String.ext hd)

/-- Qualified sub-column names of distinct base types are distinct. -/
theorem prefixedName_inj {c : String} {A B : BaseRDFNodeType}
    (h : prefixedName c A = prefixedName c B) : A = B := by
  apply fieldName_inj
  have hd := congrArg String.data h
  rw [prefixedName, prefixedName, String.data_append, String.data_append] at hd
  exact String.ext (List.append_cancel_left hd)

/-- Qualified names of qualifier-free columns parse uniquely: equal names
mean equal column and equal base type. -/
theorem prefixedName_inj_full {x y : String} {t s : BaseRDFNodeType}
    (hx : sepFree x = true) (hy : sepFree y = true)
    (h : prefixedName x t = prefixedName y s) : x = y ∧ t = s := by
  have hd := congrArg String.data h
  rw [prefixedName, prefixedName, String.data_append, String.data_append,
    String.data_append, String.data_append, List.append_assoc,
    List.append_assoc] at hd
  have hsep : ("<>" : String).data = ['<', '>'] := rfl
  rw [hsep] at hd
  have hx' : containsChars x.data ['<', '>'] = false := by
    rcases hb : containsChars x.data ['<', '>'] with _ | _
    · rfl
    · rw [sepFree, hb] at hx
      simp at hx
  have hy' : containsChars y.data ['<', '>'] = false := by
    rcases hb : containsChars y.data ['<', '>'] with _ | _
    · rfl
    · rw [sepFree, hb] at hy
      simp at hy
  have := sep_parse x.data y.data t.fieldName.data s.fieldName.data hx' hy'
    (by simpa using hd)
  exact ⟨String.ext this.1, fieldName_inj (String.ext this.2)⟩

/-- Reduction of `union`'s reconciliation step in the both-sides-single-typed
case (graph_patterns.rs lines 406-419): the sorted two-type multitype is
recorded and both sides' columns are converted to multitype. -/
theorem unionStep_base_base (rt : TypeMap) (c : String)
    (A B : BaseRDFNodeType)
    (hget : TypeMap.get rt c = some (B.as_rdf_node_type))
    (hne : ¬ A.as_rdf_node_type = B.as_rdf_node_type) (st : UnionState) :
    unionStep rt st (c, A.as_rdf_node_type) =
      { st with
          left_mappings :=
            convert_lf_col_to_multitype st.left_mappings c (A.as_rdf_node_type)
          right_mappings :=
            convert_lf_col_to_multitype st.right_mappings c (B.as_rdf_node_type)
          left_new_multitypes :=
            st.left_new_multitypes.insert c (.MultiType [A])
          right_new_multitypes :=
            st.right_new_multitypes.insert c (.MultiType [B])
          updated_types :=
            st.updated_types.insert c (.MultiType (sortBaseTypes [A, B])) } := by
  cases A <;> cases B <;>
    simp_all [unionStep, BaseRDFNodeType.as_rdf_node_type,
      BaseRDFNodeType.from_rdf_node_type]

/-- Conversion of a single-column, single-typed frame to a multitype frame. -/
theorem convert_on_singleton (c : String) (A : BaseRDFNodeType)
    (vs : List SVal) :
    convert_lf_col_to_multitype
        ⟨[c], vs.map (fun v => [(c, Cell.scalar v)])⟩ c (A.as_rdf_node_type) =
      ⟨[c], vs.map (fun v => [(c, Cell.multi [(A, v)])])⟩ := by
  rw [convert_lf_col_to_multitype]
  refine congrArg (fun rows => DF.mk [c] rows) ?_
  rw [List.map_map]
  apply List.map_congr_left
  intro v _
  simp [convRow, Row.get, Row.set, from_as]

/-- Collecting pre-existing multitypes over a single-base-typed map is the
identity. -/
theorem addExistingMultitypes_base (m : TypeMap) (c : String)
    (A : BaseRDFNodeType) :
    addExistingMultitypes m [(c, A.as_rdf_node_type)] = m := by
  cases A <;> rfl

/-- Explosion of a one-column frame whose multitype has one constituent. -/
theorem explode_on_singleton (c : String) (X : BaseRDFNodeType)
    (vs : List SVal) :
    explode_multicols ⟨[c], vs.map (fun v => [(c, Cell.multi [(X, v)])])⟩
        [(c, RDFNodeType.MultiType [X])] =
      (⟨[prefixedName c X],
        vs.map (fun v => [(prefixedName c X, Cell.scalar v)])⟩,
       [(c, ([X], [prefixedName c X]))]) := by
  simp only [explode_multicols, explodeStep, List.foldl_cons, List.foldl_nil]
  refine congrArg (fun x => (x, [(c, ([X], [prefixedName c X]))])) ?_
  refine congrArg₂ DF.mk (by simp) ?_
  rw [List.map_map]
  apply List.map_congr_left
  intro v _
  simp [explodeRow, Row.dropKeys, Row.get, fieldGet]

/-- The sub-column merge loop on one shared column with disjoint
single-element sub-column lists appends the right side's sub-column. -/
theorem mergeExploded_pair (c : String) (A B : BaseRDFNodeType)
    (pa pb : String) (hBA : ¬ B = A) :
    mergeExploded [(c, ([A], [pa]))] [(c, ([B], [pb]))] =
      [(c, ([A, B], [pa, pb]))] := by
  simp [mergeExploded, mergeEntryUpd, addMissingInner, hBA]

/-- The output type map of `union` on one shared, reconciled column. -/
theorem unionOutMap_pair (c : String) (Ar Br M : RDFNodeType) :
    unionOutMap [(c, Ar)] [(c, Br)] [(c, M)] = [(c, M)] := by
  simp [unionOutMap, unionOutStep, TypeMap.containsKey, TypeMap.get]

/-- Diagonal concatenation of two one-column frames with distinct columns. -/
theorem concat_pair (pa pb : String) (hba : ¬ pb = pa) (l r : List Row) :
    concat_lf_diagonal ⟨[pa], l⟩ ⟨[pb], r⟩ = ⟨[pa, pb], l ++ r⟩ := by
  simp [concat_lf_diagonal, hba]

/-- Implosion of the two aligned sub-columns back into one multitype column:
left-origin rows expose their value under the left type's sub-field and null
under the right type's, and symmetrically for right-origin rows. -/
theorem implode_on_pair (c pa pb : String) (A B : BaseRDFNodeType)
    (hba : ¬ pb = pa) (hab : ¬ pa = pb) (vs1 vs2 : List SVal) :
    implode_multicolumns
        ⟨[pa, pb],
          vs1.map (fun v => [(pa, Cell.scalar v)]) ++
            vs2.map (fun v => [(pb, Cell.scalar v)])⟩
        [(c, ([A, B], [pa, pb]))] =
      ⟨[c],
        vs1.map (fun v => [(c, Cell.multi [(A, v), (B, SVal.null)])]) ++
          vs2.map (fun v => [(c, Cell.multi [(A, SVal.null), (B, v)])])⟩ := by
  simp only [implode_multicolumns, implodeStep, List.foldl_cons, List.foldl_nil]
  refine congrArg₂ DF.mk ?_ ?_
  · simp
  · rw [List.map_append, List.map_map, List.map_map]
    refine congrArg₂ (fun a b => a ++ b) ?_ ?_
    · apply List.map_congr_left
      intro v _
      simp [implodeRow, Row.dropKeys, Row.get, Cell.asScalar, hba, hab]
    · apply List.map_congr_left
      intro v _
      simp [implodeRow, Row.dropKeys, Row.get, Cell.asScalar, hba, hab]

/-- Explosion of a one-column frame by a two-constituent multitype. -/
theorem explode_pair (c : String) (X Y : BaseRDFNodeType) (rows : List Row) :
    explode_multicols ⟨[c], rows⟩ [(c, RDFNodeType.MultiType [X, Y])] =
      (⟨[prefixedName c X, prefixedName c Y],
        rows.map (explodeRow c [X, Y])⟩,
       [(c, ([X, Y], [prefixedName c X, prefixedName c Y]))]) := by
  simp [explode_multicols, explodeStep]

/-- Sorting a two-element base type list yields one of its arrangements. -/
theorem sortBaseTypes_two (A B : BaseRDFNodeType) :
    sortBaseTypes [A, B] = [A, B] ∨ sortBaseTypes [A, B] = [B, A] := by
  rw [sortBaseTypes, sortByC, sortByC, sortByC]
  by_cases h : btLe A B = true
  · left
    rw [insertSorted, insertSorted, if_pos h]
  · right
    rw [insertSorted, insertSorted, if_neg h, insertSorted]

/-- A string unequal to every element is not contained. -/
theorem contains_eq_false_of_all_ne {ks : List String} {k : String}
    (h : ∀ x ∈ ks, ¬ k = x) : ks.contains k = false := by
  induction ks with
  | nil => rfl
  | cons a t ih =>
    rw [List.contains_cons, Bool.or_eq_false_iff]
    constructor
    · simpa using h a (List.mem_cons_self a t)
    · exact ih (fun x hx => h x (List.mem_cons_of_mem a hx))

/-- A member is contained. -/
theorem contains_eq_true_of_mem {ks : List String} {k : String}
    (h : k ∈ ks) : ks.contains k = true := by
  induction ks with
  | nil => cases h
  | cons a t ih =>
    rw [List.contains_cons]
    rcases List.mem_cons.mp h with rfl | h2
    · simp
    · rw [ih h2]
      simp

/-- A key unequal to every entry's key is absent from a row. -/
theorem Row.hasKey_eq_false_of_all_ne {r : Row} {k : String}
    (h : ∀ p ∈ r, ¬ p.1 = k) : Row.hasKey r k = false := by
  rw [Row.hasKey, List.any_eq_false]
  intro p hp
  simpa using h p hp

/-- Inserting at another key does not change a lookup. -/
theorem TypeMap.get_insert_ne (m : TypeMap) (d k : String) (v : RDFNodeType)
    (h : ¬ d = k) :
    TypeMap.get (TypeMap.insert m d v) k = TypeMap.get m k := by
  induction m with
  | nil => simp [TypeMap.insert, TypeMap.get, h]
  | cons p t ih =>
    obtain ⟨k1, v1⟩ := p
    rw [TypeMap.insert]
    by_cases h1 : k1 = d
    · subst h1
      rw [if_pos rfl, TypeMap.get, TypeMap.get, if_neg h, if_neg h]
    · rw [if_neg h1, TypeMap.get, TypeMap.get]
      by_cases h2 : k1 = k
      · rw [if_pos h2, if_pos h2]
      · rw [if_neg h2, if_neg h2, ih]

/-- A row transformation that disturbs neither the lookup nor the presence
of a named key. -/
def keepsCol (g : Row → Row) (k : String) : Prop :=
  ∀ r, Row.get (g r) k = Row.get r k ∧ Row.hasKey (g r) k = Row.hasKey r k

/-- A row transformation that keeps a column and all of its qualified
sub-column names intact. -/
def keepsTracked (g : Row → Row) (c : String) : Prop :=
  keepsCol g c ∧ ∀ t : BaseRDFNodeType, keepsCol g (prefixedName c t)

/-- The identity keeps every key. -/
theorem keepsCol_id (k : String) : keepsCol id k := fun _ => ⟨rfl, rfl⟩

/-- The identity keeps every tracked class. -/
theorem keepsTracked_id (c : String) : keepsTracked id c :=
  ⟨keepsCol_id c, fun _ => keepsCol_id _⟩

/-- Keeping a key composes. -/
theorem keepsCol_comp {g1 g2 : Row → Row} {k : String}
    (h1 : keepsCol g1 k) (h2 : keepsCol g2 k) :
    keepsCol (fun r => g2 (g1 r)) k :=
  fun r => ⟨((h2 (g1 r)).1).trans (h1 r).1, ((h2 (g1 r)).2).trans (h1 r).2⟩

/-- Keeping a tracked class composes. -/
theorem keepsTracked_comp {g1 g2 : Row → Row} {c : String}
    (h1 : keepsTracked g1 c) (h2 : keepsTracked g2 c) :
    keepsTracked (fun r => g2 (g1 r)) c :=
  ⟨keepsCol_comp h1.1 h2.1, fun t => keepsCol_comp (h1.2 t) (h2.2 t)⟩

/-- A multitype conversion of another column keeps a key. -/
theorem keepsCol_convRow {d : String} (T : RDFNodeType) {k : String}
    (h : ¬ d = k) : keepsCol (convRow d T) k := by
  intro r
  rcases hx : Row.get r d with v | fs <;>
    simp [convRow, hx, Row.get_set_ne _ _ _ _ h, Row.hasKey_set_ne _ _ _ _ h]

/-- A multitype conversion of a distinct qualifier-free column keeps the
tracked class of a column. -/
theorem keepsTracked_convRow {d c : String} (T : RDFNodeType) (hd : ¬ d = c)
    (hsfd : sepFree d = true) : keepsTracked (convRow d T) c :=
  ⟨keepsCol_convRow T hd,
   fun t => keepsCol_convRow T (sepFree_ne_prefixedName hsfd c t)⟩

/-- Exploding another column keeps a key none of the new sub-columns hit. -/
theorem keepsCol_explodeRow {d : String} (ts : List BaseRDFNodeType)
    {k : String} (hdk : ¬ d = k)
    (hav : ∀ t, ¬ prefixedName d t = k) :
    keepsCol (explodeRow d ts) k := by
  have hc : ([d] : List String).contains k = false := by
    apply contains_eq_false_of_all_ne
    intro x hx
    rcases List.mem_singleton.mp hx with rfl
    exact fun e => hdk e.symm
  intro r
  rw [explodeRow]
  constructor
  · rw [Row.get_append_of_avoid]
    · exact Row.get_dropKeys_of_not_mem r [d] k hc
    · intro p hp
      obtain ⟨t, _, rfl⟩ := List.mem_map.mp hp
      exact hav t
  · rw [Row.hasKey_append, Row.hasKey_dropKeys_of_not_mem _ _ _ hc,
      Row.hasKey_eq_false_of_all_ne (r := ts.map
        (fun t => (prefixedName d t, Cell.scalar (fieldGet (Row.get r d) t))))]
    · simp
    · intro p hp
      obtain ⟨t, _, rfl⟩ := List.mem_map.mp hp
      exact hav t

/-- Exploding another qualifier-free column keeps the tracked class. -/
theorem keepsTracked_explodeRow {d c : String} (ts : List BaseRDFNodeType)
    (hd : ¬ d = c) (hsfd : sepFree d = true) (hsfc : sepFree c = true) :
    keepsTracked (explodeRow d ts) c := by
  constructor
  · exact keepsCol_explodeRow ts hd
      (fun t e => (sepFree_ne_prefixedName hsfc d t) e.symm)
  · intro t
    refine keepsCol_explodeRow ts (sepFree_ne_prefixedName hsfd c t) ?_
    intro t' e
    exact hd (prefixedName_inj_full hsfd hsfc e).1

/-- Imploding another column keeps a key none of its sub-columns hit. -/
theorem keepsCol_implodeRow {d : String} (ts' : List BaseRDFNodeType)
    (ps' : List String) {k : String} (hdk : ¬ d = k)
    (hc : ps'.contains k = false) :
    keepsCol (implodeRow d ts' ps') k := by
  intro r
  rw [implodeRow]
  constructor
  · rw [Row.get_append_of_avoid]
    · exact Row.get_dropKeys_of_not_mem r ps' k hc
    · intro p hp
      rcases List.mem_singleton.mp hp with rfl
      exact hdk
  · rw [Row.hasKey_append, Row.hasKey_dropKeys_of_not_mem _ _ _ hc,
      Row.hasKey_eq_false_of_all_ne
        (r := [(d, Cell.multi ((ts'.zip ps').map
          (fun p => (p.1, (Row.get r p.2).asScalar))))])]
    · simp
    · intro p hp
      rcases List.mem_singleton.mp hp with rfl
      exact hdk

/-- Imploding another qualifier-free column, whose sub-columns are all
qualified to it, keeps the tracked class. -/
theorem keepsTracked_implodeRow {d c : String} (ts' : List BaseRDFNodeType)
    (ps' : List String) (hd : ¬ d = c) (hsfd : sepFree d = true)
    (hsfc : sepFree c = true)
    (hps : ∀ s ∈ ps', ∃ t, s = prefixedName d t) :
    keepsTracked (implodeRow d ts' ps') c := by
  constructor
  · refine keepsCol_implodeRow ts' ps' hd (contains_eq_false_of_all_ne ?_)
    intro x hx
    obtain ⟨t, rfl⟩ := hps x hx
    exact sepFree_ne_prefixedName hsfc d t
  · intro t
    refine keepsCol_implodeRow ts' ps' (sepFree_ne_prefixedName hsfd c t)
      (contains_eq_false_of_all_ne ?_)
    intro x hx
    obtain ⟨t', rfl⟩ := hps x hx
    intro e
    exact hd (prefixedName_inj_full hsfc hsfd e).1.symm

/-- Evolution of a type map along the union pipeline: the tracked column's
entry is unchanged, key uniqueness is preserved, and key qualifier-freeness
is preserved. -/
def mapEvolved (c : String) (m0 m : TypeMap) : Prop :=
  TypeMap.get m c = TypeMap.get m0 c ∧
  (m0.keys.Nodup → m.keys.Nodup) ∧
  ((∀ k ∈ m0.keys, sepFree k = true) → ∀ k ∈ m.keys, sepFree k = true)

/-- Evolution is reflexive. -/
theorem mapEvolved_refl (c : String) (m : TypeMap) : mapEvolved c m m :=
  ⟨rfl, id, id⟩

/-- Evolution is transitive. -/
theorem mapEvolved_trans {c : String} {m0 m1 m2 : TypeMap}
    (h1 : mapEvolved c m0 m1) (h2 : mapEvolved c m1 m2) :
    mapEvolved c m0 m2 :=
  ⟨h2.1.trans h1.1, fun h => h2.2.1 (h1.2.1 h), fun h => h2.2.2 (h1.2.2 h)⟩

/-- Inserting at another qualifier-free key is an evolution. -/
theorem mapEvolved_insert {c : String} (m : TypeMap) {d : String}
    (v : RDFNodeType) (hd : ¬ d = c) (hsfd : sepFree d = true) :
    mapEvolved c m (TypeMap.insert m d v) := by
  refine ⟨TypeMap.get_insert_ne m d c v hd,
    fun h => TypeMap.nodup_keys_insert h, ?_⟩
  intro h k hk
  rcases TypeMap.mem_keys_insert hk with h2 | h2
  · exact h k h2
  · subst h2
    exact hsfd

/-- Shape of one reconciliation step: each side's rows are either untouched
or column-converted at the entry's key, and each state map is either
untouched or inserted at the entry's key. -/
theorem unionStep_shape (rd : TypeMap) (st : UnionState)
    (e : String × RDFNodeType) :
    ∃ gl gr,
      (unionStep rd st e).left_mappings.rows =
        st.left_mappings.rows.map gl ∧
      (unionStep rd st e).right_mappings.rows =
        st.right_mappings.rows.map gr ∧
      (gl = id ∨ ∃ T, gl = convRow e.1 T) ∧
      (gr = id ∨ ∃ T, gr = convRow e.1 T) ∧
      ((unionStep rd st e).updated_types = st.updated_types ∨
        ∃ v, (unionStep rd st e).updated_types =
          TypeMap.insert st.updated_types e.1 v) ∧
      ((unionStep rd st e).left_new_multitypes = st.left_new_multitypes ∨
        ∃ v, (unionStep rd st e).left_new_multitypes =
          TypeMap.insert st.left_new_multitypes e.1 v) ∧
      ((unionStep rd st e).right_new_multitypes = st.right_new_multitypes ∨
        ∃ v, (unionStep rd st e).right_new_multitypes =
          TypeMap.insert st.right_new_multitypes e.1 v) := by
  obtain ⟨d, T⟩ := e
  simp only [unionStep]
  split
  · exact ⟨id, id, (List.map_id _).symm, (List.map_id _).symm,
      Or.inl rfl, Or.inl rfl, Or.inl rfl, Or.inl rfl, Or.inl rfl⟩
  · split
    · exact ⟨id, id, (List.map_id _).symm, (List.map_id _).symm,
        Or.inl rfl, Or.inl rfl, Or.inl rfl, Or.inl rfl, Or.inl rfl⟩
    · split
      · split
        · exact ⟨id, id, (List.map_id _).symm, (List.map_id _).symm,
            Or.inl rfl, Or.inl rfl, Or.inr ⟨_, rfl⟩, Or.inl rfl, Or.inl rfl⟩
        · exact ⟨id, convRow d _, (List.map_id _).symm, rfl,
            Or.inl rfl, Or.inr ⟨_, rfl⟩, Or.inr ⟨_, rfl⟩, Or.inl rfl,
            Or.inr ⟨_, rfl⟩⟩
      · split
        · exact ⟨convRow d _, id, rfl, (List.map_id _).symm,
            Or.inr ⟨_, rfl⟩, Or.inl rfl, Or.inr ⟨_, rfl⟩, Or.inr ⟨_, rfl⟩,
            Or.inl rfl⟩
        · exact ⟨convRow d _, convRow d _, rfl, rfl,
            Or.inr ⟨_, rfl⟩, Or.inr ⟨_, rfl⟩, Or.inr ⟨_, rfl⟩,
            Or.inr ⟨_, rfl⟩, Or.inr ⟨_, rfl⟩⟩

/-- The reconciliation loop over entries that avoid a tracked qualifier-free
column keeps both sides' rows at that column's tracked class and evolves all
three state maps without touching the column's entries. -/
theorem unionFold_frame (rd : TypeMap) (c : String) :
    ∀ es : TypeMap, (∀ e ∈ es, ¬ e.1 = c ∧ sepFree e.1 = true) →
    ∀ st : UnionState,
      ∃ gl gr,
        (es.foldl (unionStep rd) st).left_mappings.rows =
          st.left_mappings.rows.map gl ∧
        (es.foldl (unionStep rd) st).right_mappings.rows =
          st.right_mappings.rows.map gr ∧
        keepsTracked gl c ∧ keepsTracked gr c ∧
        mapEvolved c st.updated_types
          (es.foldl (unionStep rd) st).updated_types ∧
        mapEvolved c st.left_new_multitypes
          (es.foldl (unionStep rd) st).left_new_multitypes ∧
        mapEvolved c st.right_new_multitypes
          (es.foldl (unionStep rd) st).right_new_multitypes := by
  intro es
  induction es with
  | nil =>
    intro _ st
    exact ⟨id, id, (List.map_id _).symm, (List.map_id _).symm,
      keepsTracked_id c, keepsTracked_id c, mapEvolved_refl c _,
      mapEvolved_refl c _, mapEvolved_refl c _⟩
  | cons e rest ih =>
    intro h st
    obtain ⟨he1, he2⟩ := h e (List.mem_cons_self e rest)
    obtain ⟨gl1, gr1, hl1, hr1, hsl, hsr, hut1, hln1, hrn1⟩ :=
      unionStep_shape rd st e
    obtain ⟨gl2, gr2, hl2, hr2, hk2l, hk2r, hut2, hln2, hrn2⟩ :=
      ih (fun x hx => h x (List.mem_cons_of_mem e hx)) (unionStep rd st e)
    have hktl : keepsTracked gl1 c := by
      rcases hsl with rfl | ⟨T, rfl⟩
      · exact keepsTracked_id c
      · exact keepsTracked_convRow T he1 he2
    have hktr : keepsTracked gr1 c := by
      rcases hsr with rfl | ⟨T, rfl⟩
      · exact keepsTracked_id c
      · exact keepsTracked_convRow T he1 he2
    have hute : mapEvolved c st.updated_types
        (unionStep rd st e).updated_types := by
      rcases hut1 with h1 | ⟨v, h1⟩ <;> rw [h1]
      · exact mapEvolved_refl c _
      · exact mapEvolved_insert _ v he1 he2
    have hlne : mapEvolved c st.left_new_multitypes
        (unionStep rd st e).left_new_multitypes := by
      rcases hln1 with h1 | ⟨v, h1⟩ <;> rw [h1]
      · exact mapEvolved_refl c _
      · exact mapEvolved_insert _ v he1 he2
    have hrne : mapEvolved c st.right_new_multitypes
        (unionStep rd st e).right_new_multitypes := by
      rcases hrn1 with h1 | ⟨v, h1⟩ <;> rw [h1]
      · exact mapEvolved_refl c _
      · exact mapEvolved_insert _ v he1 he2
    rw [List.foldl_cons]
    refine ⟨fun r => gl2 (gl1 r), fun r => gr2 (gr1 r), ?_, ?_,
      keepsTracked_comp hktl hk2l, keepsTracked_comp hktr hk2r,
      mapEvolved_trans hute hut2, mapEvolved_trans hlne hln2,
      mapEvolved_trans hrne hrn2⟩
    · rw [hl2, hl1, List.map_map]
      rfl
    · rw [hr2, hr1, List.map_map]
      rfl

/-- An embedded base type is never a multitype. -/
theorem as_rdf_ne_MultiType (A : BaseRDFNodeType)
    (ts : List BaseRDFNodeType) : ¬ A.as_rdf_node_type = .MultiType ts := by
  cases A <;> simp [BaseRDFNodeType.as_rdf_node_type]

/-- Unfolding of the pre-existing-multitype collection on a cons. -/
theorem addExisting_cons (m : TypeMap) (e : String × RDFNodeType)
    (rest : TypeMap) :
    addExistingMultitypes m (e :: rest) =
      addExistingMultitypes
        (match e.2 with
         | .MultiType _ => m.insert e.1 e.2
         | _ => m) rest := rfl

/-- Collecting pre-existing multitypes over qualifier-free entries whose
tracked-column values are never multitype is an evolution. -/
theorem addExisting_evolved (c : String) :
    ∀ dts : TypeMap, (∀ e ∈ dts, sepFree e.1 = true) →
      (∀ e ∈ dts, ∀ ts, e.1 = c → ¬ e.2 = .MultiType ts) →
    ∀ m : TypeMap, mapEvolved c m (addExistingMultitypes m dts) := by
  intro dts
  induction dts with
  | nil =>
    intro _ _ m
    exact mapEvolved_refl c m
  | cons e rest ih =>
    intro hsf hnc m
    rw [addExisting_cons]
    rcases he : e.2 with _ | _ | dt | ts
    · simp only [he]
      exact ih (fun x hx => hsf x (List.mem_cons_of_mem e hx))
        (fun x hx => hnc x (List.mem_cons_of_mem e hx)) m
    · simp only [he]
      exact ih (fun x hx => hsf x (List.mem_cons_of_mem e hx))
        (fun x hx => hnc x (List.mem_cons_of_mem e hx)) m
    · simp only [he]
      exact ih (fun x hx => hsf x (List.mem_cons_of_mem e hx))
        (fun x hx => hnc x (List.mem_cons_of_mem e hx)) m
    · simp only [he]
      have he1 : ¬ e.1 = c :=
        fun h => hnc e (List.mem_cons_self e rest) ts h he
      refine mapEvolved_trans
        (mapEvolved_insert m e.2 he1 (hsf e (List.mem_cons_self e rest))) ?_
      rw [he]
      exact ih (fun x hx => hsf x (List.mem_cons_of_mem e hx))
        (fun x hx => hnc x (List.mem_cons_of_mem e hx)) _

/-- Record an explode-fold entry produces for a type-map entry: `none` for a
non-multitype column, the sub-column record otherwise. -/
def recOf (e : String × RDFNodeType) :
    Option (String × (List BaseRDFNodeType × List String)) :=
  match e.2 with
  | .MultiType ts => some (e.1, (ts, ts.map (fun t => prefixedName e.1 t)))
  | _ => none

/-- Inversion of a produced explode record. -/
theorem recOf_some_inv {e : String × RDFNodeType}
    {x : String × (List BaseRDFNodeType × List String)}
    (h : recOf e = some x) :
    ∃ ts, e.2 = .MultiType ts ∧
      x = (e.1, (ts, ts.map (fun t => prefixedName e.1 t))) := by
  rcases he : e.2 with _ | _ | dt | ts <;> rw [recOf, he] at h
  · cases h
  · cases h
  · cases h
  · exact ⟨ts, rfl, by injection h with h2; exact h2.symm⟩

/-- The explode fold's record component collects exactly the multitype
entries' records, in order. -/
theorem explodeFold_em :
    ∀ (es : TypeMap) (acc : DF × ExplodedMap),
      (es.foldl explodeStep acc).2 = acc.2 ++ es.filterMap recOf := by
  intro es
  induction es with
  | nil =>
    intro acc
    simp
  | cons e rest ih =>
    intro acc
    rw [List.foldl_cons, ih, List.filterMap_cons]
    rcases he : e.2 with _ | _ | dt | ts <;>
      simp [explodeStep, recOf, he, List.append_assoc]

/-- An explode fold over entries that avoid a tracked qualifier-free column
keeps the tracked class of that column. -/
theorem explodeFold_frame (c : String) (hsfc : sepFree c = true) :
    ∀ es : TypeMap, (∀ e ∈ es, ¬ e.1 = c ∧ sepFree e.1 = true) →
    ∀ acc : DF × ExplodedMap,
      ∃ g, (es.foldl explodeStep acc).1.rows = acc.1.rows.map g ∧
        keepsTracked g c := by
  intro es
  induction es with
  | nil =>
    intro _ acc
    exact ⟨id, (List.map_id _).symm, keepsTracked_id c⟩
  | cons e rest ih =>
    intro h acc
    obtain ⟨he1, he2⟩ := h e (List.mem_cons_self e rest)
    obtain ⟨g2, hg2, hk2⟩ :=
      ih (fun x hx => h x (List.mem_cons_of_mem e hx)) (explodeStep acc e)
    rw [List.foldl_cons]
    rcases he : e.2 with _ | _ | dt | ts
    · have hstep : explodeStep acc e = acc := by simp [explodeStep, he]
      exact ⟨g2, by rw [hg2, hstep], hk2⟩
    · have hstep : explodeStep acc e = acc := by simp [explodeStep, he]
      exact ⟨g2, by rw [hg2, hstep], hk2⟩
    · have hstep : explodeStep acc e = acc := by simp [explodeStep, he]
      exact ⟨g2, by rw [hg2, hstep], hk2⟩
    · have hstep : (explodeStep acc e).1.rows =
          acc.1.rows.map (explodeRow e.1 ts) := by
        simp [explodeStep, he]
      refine ⟨fun r => g2 (explodeRow e.1 ts r), ?_,
        keepsTracked_comp (keepsTracked_explodeRow ts he1 he2 hsfc) hk2⟩
      rw [hg2, hstep, List.map_map]
      rfl

/-- Well-formedness of an explode record entry that is not the tracked
column: its key differs from the tracked column, is qualifier-free, and all
its sub-column names are qualified to it. -/
def emEntryOk (c : String)
    (e : String × (List BaseRDFNodeType × List String)) : Prop :=
  ¬ e.1 = c ∧ sepFree e.1 = true ∧ ∀ s ∈ e.2.2, ∃ t, s = prefixedName e.1 t

/-- The sub-column names of an explode record are qualified to its column. -/
def entryPrefOk (e : String × (List BaseRDFNodeType × List String)) : Prop :=
  ∀ s ∈ e.2.2, ∃ t, s = prefixedName e.1 t

/-- Sub-column names produced by the missing-sub-column merge come from one
of the two sides. -/
theorem addMissingInner_mem :
    ∀ (pairs : List (BaseRDFNodeType × String)) (li : List BaseRDFNodeType)
      (lp : List String) (s : String),
      s ∈ (addMissingInner li lp pairs).2 →
      s ∈ lp ∨ ∃ p ∈ pairs, s = p.2 := by
  intro pairs
  induction pairs with
  | nil =>
    intro li lp s h
    exact Or.inl h
  | cons p rest ih =>
    intro li lp s h
    obtain ⟨q, pr⟩ := p
    rw [addMissingInner] at h
    by_cases hc : li.contains q = true
    · rw [if_pos hc] at h
      rcases ih li lp s h with h2 | ⟨e, he, hs⟩
      · exact Or.inl h2
      · exact Or.inr ⟨e, List.mem_cons_of_mem _ he, hs⟩
    · rw [if_neg hc] at h
      rcases ih _ _ s h with h2 | ⟨e, he, hs⟩
      · rcases List.mem_append.mp h2 with h3 | h3
        · exact Or.inl h3
        · rcases List.mem_singleton.mp h3 with rfl
          exact Or.inr ⟨(q, s), List.mem_cons_self _ _, rfl⟩
      · exact Or.inr ⟨e, List.mem_cons_of_mem _ he, hs⟩

/-- The missing-sub-column merge of one absent sub-column appends it. -/
theorem addMissingInner_single (A B : BaseRDFNodeType) (pA pB : String)
    (hBA : ¬ B = A) :
    addMissingInner [A] [pA] [(B, pB)] = ([A, B], [pA, pB]) := by
  have hc : ¬ ([A] : List BaseRDFNodeType).contains B = true := by
    simp [hBA]
  rw [addMissingInner, if_neg hc, addMissingInner]
  rfl

/-- A record for another column is untouched by a merge update. -/
theorem mergeEntryUpd_ne {entry e : String × (List BaseRDFNodeType × List String)}
    (h : ¬ e.1 = entry.1) : mergeEntryUpd entry e = e := by
  rw [mergeEntryUpd, if_neg h]

/-- A merge update against a well-qualified record preserves entry
well-formedness. -/
theorem emEntryOk_mergeEntryUpd {c : String}
    {entry e : String × (List BaseRDFNodeType × List String)}
    (hok : emEntryOk c e) (hpe : entryPrefOk entry) :
    emEntryOk c (mergeEntryUpd entry e) := by
  rw [mergeEntryUpd]
  split
  · rename_i hcond
    refine ⟨hok.1, hok.2.1, ?_⟩
    intro s hs
    rcases addMissingInner_mem _ _ _ s hs with h2 | ⟨q, hq, hs2⟩
    · exact hok.2.2 s h2
    · obtain ⟨q1, q2⟩ := q
      have hq2 : q2 ∈ entry.2.2 := (List.of_mem_zip hq).2
      obtain ⟨t, ht⟩ := hpe q2 hq2
      exact ⟨t, by rw [hs2, ht, hcond]⟩
  · exact hok

/-- A merge fold over records avoiding the tracked column leaves the tracked
record untouched and its neighbours well-formed. -/
theorem mergeFold_no_c (c : String) :
    ∀ es : ExplodedMap, (∀ e ∈ es, ¬ e.1 = c ∧ entryPrefOk e) →
    ∀ (pre post : ExplodedMap) (X : List BaseRDFNodeType × List String),
      (∀ e ∈ pre, emEntryOk c e) → (∀ e ∈ post, emEntryOk c e) →
      ∃ pre2 post2,
        es.foldl (fun m entry => m.map (mergeEntryUpd entry))
            (pre ++ (c, X) :: post) =
          pre2 ++ (c, X) :: post2 ∧
        (∀ e ∈ pre2, emEntryOk c e) ∧ (∀ e ∈ post2, emEntryOk c e) := by
  intro es
  induction es with
  | nil =>
    intro _ pre post X hpre hpost
    exact ⟨pre, post, rfl, hpre, hpost⟩
  | cons entry rest ih =>
    intro h pre post X hpre hpost
    obtain ⟨he1, hpe⟩ := h entry (List.mem_cons_self _ _)
    rw [List.foldl_cons]
    have hmap : (pre ++ (c, X) :: post).map (mergeEntryUpd entry) =
        pre.map (mergeEntryUpd entry) ++
          (c, X) :: post.map (mergeEntryUpd entry) := by
      rw [List.map_append, List.map_cons,
        mergeEntryUpd_ne (e := (c, X)) (fun h2 => he1 h2.symm)]
    rw [hmap]
    refine ih (fun x hx => h x (List.mem_cons_of_mem _ hx)) _ _ X ?_ ?_
    · intro e he
      obtain ⟨e0, he0, rfl⟩ := List.mem_map.mp he
      exact emEntryOk_mergeEntryUpd (hpre e0 he0) hpe
    · intro e he
      obtain ⟨e0, he0, rfl⟩ := List.mem_map.mp he
      exact emEntryOk_mergeEntryUpd (hpost e0 he0) hpe

/-- The merge update of the tracked record by the other side's tracked
record appends the missing sub-column. -/
theorem mergeStep_c (c : String) (A B : BaseRDFNodeType) (hBA : ¬ B = A)
    (pre post : ExplodedMap)
    (hpre : ∀ e ∈ pre, ¬ e.1 = c) (hpost : ∀ e ∈ post, ¬ e.1 = c) :
    (pre ++ (c, ([A], [prefixedName c A])) :: post).map
        (mergeEntryUpd (c, ([B], [prefixedName c B]))) =
      pre ++
        (c, ([A, B], [prefixedName c A, prefixedName c B])) :: post := by
  rw [List.map_append, List.map_cons]
  refine congrArg₂ (fun a b => a ++ b) ?_ (congrArg₂ (fun a b => a :: b) ?_ ?_)
  · rw [List.map_congr_left (fun e he => mergeEntryUpd_ne (hpre e he))]
    exact List.map_id' pre
  · rw [mergeEntryUpd, if_pos rfl]
    show (c, addMissingInner [A] [prefixedName c A]
      [(B, prefixedName c B)]) = _
    rw [addMissingInner_single A B _ _ hBA]
  · rw [List.map_congr_left (fun e he => mergeEntryUpd_ne (hpost e he))]
    exact List.map_id' post

/-- An implode fold over well-formed records for other columns keeps the
tracked class of the tracked column. -/
theorem implodeFold_frame (c : String) (hsfc : sepFree c = true) :
    ∀ es : ExplodedMap, (∀ e ∈ es, emEntryOk c e) →
    ∀ df : DF,
      ∃ g, (es.foldl implodeStep df).rows = df.rows.map g ∧
        keepsTracked g c := by
  intro es
  induction es with
  | nil =>
    intro _ df
    exact ⟨id, (List.map_id _).symm, keepsTracked_id c⟩
  | cons e rest ih =>
    intro h df
    obtain ⟨he1, he2, he3⟩ := h e (List.mem_cons_self _ _)
    obtain ⟨g2, hg2, hk2⟩ :=
      ih (fun x hx => h x (List.mem_cons_of_mem _ hx)) (implodeStep df e)
    rw [List.foldl_cons]
    have hstep : (implodeStep df e).rows =
        df.rows.map (implodeRow e.1 e.2.1 e.2.2) := rfl
    refine ⟨fun r => g2 (implodeRow e.1 e.2.1 e.2.2 r), ?_,
      keepsTracked_comp
        (keepsTracked_implodeRow e.2.1 e.2.2 he1 he2 hsfc he3) hk2⟩
    rw [hg2, hstep, List.map_map]
    rfl

/-- Every record an explode fold produces from well-keyed entries is
well-formed and well-qualified. -/
theorem filterMap_recOf_ok (c : String) {es : TypeMap}
    (hkeys : ∀ e ∈ es, ¬ e.1 = c ∧ sepFree e.1 = true) :
    ∀ x ∈ es.filterMap recOf, emEntryOk c x ∧ entryPrefOk x := by
  intro x hx
  obtain ⟨e, he, hsome⟩ := List.mem_filterMap.mp hx
  obtain ⟨ts, _, rfl⟩ := recOf_some_inv hsome
  obtain ⟨he1, he2⟩ := hkeys e he
  refine ⟨⟨he1, he2, ?_⟩, ?_⟩
  · intro s hs
    obtain ⟨t, _, rfl⟩ := List.mem_map.mp hs
    exact ⟨t, rfl⟩
  · intro s hs
    obtain ⟨t, _, rfl⟩ := List.mem_map.mp hs
    exact ⟨t, rfl⟩

/-- Every record an explode fold produces is well-qualified. -/
theorem filterMap_recOf_prefOk {es : TypeMap} :
    ∀ x ∈ es.filterMap recOf, entryPrefOk x := by
  intro x hx
  obtain ⟨e, _, hsome⟩ := List.mem_filterMap.mp hx
  obtain ⟨ts, _, rfl⟩ := recOf_some_inv hsome
  intro s hs
  obtain ⟨t, _, rfl⟩ := List.mem_map.mp hs
  exact ⟨t, rfl⟩

/-- The sub-field of a one-field multitype struct. -/
theorem fieldGet_single (A : BaseRDFNodeType) (v : SVal) :
    fieldGet (.multi [(A, v)]) A = v := by
  simp [fieldGet]

/-- The first sub-field of a two-field multitype struct. -/
theorem fieldGet_pair_fst (A B : BaseRDFNodeType) (x y : SVal) :
    fieldGet (.multi [(A, x), (B, y)]) A = x := by
  simp [fieldGet]

/-- The second sub-field of a two-field multitype struct. -/
theorem fieldGet_pair_snd (A B : BaseRDFNodeType) (x y : SVal)
    (hAB : ¬ A = B) :
    fieldGet (.multi [(A, x), (B, y)]) B = y := by
  simp [fieldGet, hAB]

/-- Conversion of a scalar tracked cell wraps it into a one-field multitype
struct and leaves the qualified sub-column names untouched. -/
theorem convRow_c_scalar (c : String) (hsfc : sepFree c = true)
    (A : BaseRDFNodeType) (r : Row)
    (hs : (Row.get r c).isScalar = true) :
    Row.get (convRow c A.as_rdf_node_type r) c =
      Cell.multi [(A, (Row.get r c).asScalar)] ∧
    ∀ t, Row.hasKey (convRow c A.as_rdf_node_type r) (prefixedName c t) =
      Row.hasKey r (prefixedName c t) := by
  rcases hx : Row.get r c with v | fs
  · constructor
    · rw [convRow, hx, Row.get_set_self, from_as]
      rfl
    · intro t
      rw [convRow, hx]
      exact Row.hasKey_set_ne r c (prefixedName c t) _
        (sepFree_ne_prefixedName hsfc c t)
  · rw [hx] at hs
    cases hs

/-- Exploding the tracked one-constituent multitype column moves its value
into the constituent's qualified sub-column and removes the column. -/
theorem explodeRow_c_single (c : String) (hsfc : sepFree c = true)
    (A : BaseRDFNodeType) (r : Row) (v : SVal)
    (hget : Row.get r c = Cell.multi [(A, v)])
    (hpk : ∀ t, Row.hasKey r (prefixedName c t) = false) :
    Row.get (explodeRow c [A] r) (prefixedName c A) = Cell.scalar v ∧
    Row.hasKey (explodeRow c [A] r) c = false ∧
    ∀ t, ¬ t = A →
      Row.hasKey (explodeRow c [A] r) (prefixedName c t) = false := by
  have hcnp : ∀ t, ¬ c = prefixedName c t :=
    fun t => sepFree_ne_prefixedName hsfc c t
  have hrw : explodeRow c [A] r =
      Row.dropKeys r [c] ++
        [(prefixedName c A, Cell.scalar (fieldGet (Row.get r c) A))] := rfl
  have hcA : ([c] : List String).contains (prefixedName c A) = false := by
    apply contains_eq_false_of_all_ne
    intro x hx
    rcases List.mem_singleton.mp hx with rfl
    exact fun e => hcnp A e.symm
  have h1 : Row.hasKey (Row.dropKeys r [c]) (prefixedName c A) = false := by
    rw [Row.hasKey_dropKeys_of_not_mem _ _ _ hcA]
    exact hpk A
  refine ⟨?_, ?_, ?_⟩
  · rw [hrw, Row.get_append_of_hasKey_false _ _ _ h1, Row.get, if_pos rfl,
      hget, fieldGet_single]
  · rw [hrw, Row.hasKey_append,
      Row.hasKey_dropKeys_of_mem _ _ _
        (contains_eq_true_of_mem (List.mem_singleton_self c)),
      Row.hasKey_eq_false_of_all_ne (r :=
        [(prefixedName c A, Cell.scalar (fieldGet (Row.get r c) A))]
        ) (by
          intro p hp
          rcases List.mem_singleton.mp hp with rfl
          exact fun e => hcnp A e.symm)]
    rfl
  · intro t ht
    have hct : ([c] : List String).contains (prefixedName c t) = false := by
      apply contains_eq_false_of_all_ne
      intro x hx
      rcases List.mem_singleton.mp hx with rfl
      exact fun e => hcnp t e.symm
    rw [hrw, Row.hasKey_append,
      Row.hasKey_dropKeys_of_not_mem _ _ _ hct, hpk t,
      Row.hasKey_eq_false_of_all_ne (r :=
        [(prefixedName c A, Cell.scalar (fieldGet (Row.get r c) A))]
        ) (by
          intro p hp
          rcases List.mem_singleton.mp hp with rfl
          exact fun e => ht (prefixedName_inj e).symm)]
    rfl

/-- Imploding the two aligned tracked sub-columns rebuilds the tracked
multitype struct cell from them and removes them. -/
theorem implodeRow_c_pair (c : String) (hsfc : sepFree c = true)
    (A B : BaseRDFNodeType) (r : Row)
    (hkc : Row.hasKey r c = false)
    (hother : ∀ t, ¬ t = A → ¬ t = B →
      Row.hasKey r (prefixedName c t) = false) :
    Row.get (implodeRow c [A, B] [prefixedName c A, prefixedName c B] r) c =
      Cell.multi [(A, (Row.get r (prefixedName c A)).asScalar),
                  (B, (Row.get r (prefixedName c B)).asScalar)] ∧
    ∀ t, Row.hasKey
        (implodeRow c [A, B] [prefixedName c A, prefixedName c B] r)
        (prefixedName c t) = false := by
  have hcnp : ∀ t, ¬ c = prefixedName c t :=
    fun t => sepFree_ne_prefixedName hsfc c t
  have hrw : implodeRow c [A, B] [prefixedName c A, prefixedName c B] r =
      Row.dropKeys r [prefixedName c A, prefixedName c B] ++
        [(c, Cell.multi [(A, (Row.get r (prefixedName c A)).asScalar),
          (B, (Row.get r (prefixedName c B)).asScalar)])] := rfl
  have hcc : ([prefixedName c A, prefixedName c B] : List String).contains c
      = false := by
    apply contains_eq_false_of_all_ne
    intro x hx
    rcases List.mem_cons.mp hx with rfl | hx2
    · exact hcnp A
    · rcases List.mem_singleton.mp hx2 with rfl
      exact hcnp B
  constructor
  · have h1 : Row.hasKey
        (Row.dropKeys r [prefixedName c A, prefixedName c B]) c = false := by
      rw [Row.hasKey_dropKeys_of_not_mem _ _ _ hcc]
      exact hkc
    rw [hrw, Row.get_append_of_hasKey_false _ _ _ h1, Row.get, if_pos rfl]
  · intro t
    rw [hrw, Row.hasKey_append,
      Row.hasKey_eq_false_of_all_ne
        (r := [(c, Cell.multi [(A, (Row.get r (prefixedName c A)).asScalar),
          (B, (Row.get r (prefixedName c B)).asScalar)])])
        (by
          intro p hp
          rcases List.mem_singleton.mp hp with rfl
          exact hcnp t)]
    by_cases htA : t = A
    · subst htA
      rw [Row.hasKey_dropKeys_of_mem _ _ _
        (contains_eq_true_of_mem (List.mem_cons_self _ _))]
      rfl
    · by_cases htB : t = B
      · subst htB
        rw [Row.hasKey_dropKeys_of_mem _ _ _
          (contains_eq_true_of_mem
            (List.mem_cons_of_mem _ (List.mem_singleton_self _)))]
        rfl
      · rw [Row.hasKey_dropKeys_mono _ _ _ (hother t htA htB)]
        rfl

/-- Re-exploding the rebuilt tracked multitype column by its two recorded
constituents, in either sorted order, reads back the two sub-field
values. -/
theorem explodeRow_reread (c : String) (hsfc : sepFree c = true)
    (A B : BaseRDFNodeType) (hAB : ¬ A = B) (ts : List BaseRDFNodeType)
    (hts : ts = [A, B] ∨ ts = [B, A]) (r : Row) (x y : SVal)
    (hget : Row.get r c = Cell.multi [(A, x), (B, y)])
    (hpk : ∀ t, Row.hasKey r (prefixedName c t) = false) :
    Row.get (explodeRow c ts r) (prefixedName c A) = Cell.scalar x ∧
    Row.get (explodeRow c ts r) (prefixedName c B) = Cell.scalar y := by
  have hcnp : ∀ t, ¬ c = prefixedName c t :=
    fun t => sepFree_ne_prefixedName hsfc c t
  have hdropK : ∀ t, Row.hasKey (Row.dropKeys r [c]) (prefixedName c t)
      = false := by
    intro t
    rw [Row.hasKey_dropKeys_of_not_mem _ _ _ (contains_eq_false_of_all_ne
      (by
        intro z hz
        rcases List.mem_singleton.mp hz with rfl
        exact fun e => hcnp t e.symm))]
    exact hpk t
  have hABp : ¬ prefixedName c A = prefixedName c B :=
    fun e => hAB (prefixedName_inj e)
  have hBAp : ¬ prefixedName c B = prefixedName c A :=
    fun e => hAB (prefixedName_inj e).symm
  rcases hts with rfl | rfl
  · have hrw : explodeRow c [A, B] r =
        Row.dropKeys r [c] ++
          [(prefixedName c A, Cell.scalar (fieldGet (Row.get r c) A)),
           (prefixedName c B, Cell.scalar (fieldGet (Row.get r c) B))] := rfl
    constructor
    · rw [hrw, Row.get_append_of_hasKey_false _ _ _ (hdropK A), Row.get,
        if_pos rfl, hget, fieldGet_pair_fst]
    · rw [hrw, Row.get_append_of_hasKey_false _ _ _ (hdropK B), Row.get,
        if_neg hABp, Row.get, if_pos rfl, hget, fieldGet_pair_snd _ _ _ _ hAB]
  · have hrw : explodeRow c [B, A] r =
        Row.dropKeys r [c] ++
          [(prefixedName c B, Cell.scalar (fieldGet (Row.get r c) B)),
           (prefixedName c A, Cell.scalar (fieldGet (Row.get r c) A))] := rfl
    constructor
    · rw [hrw, Row.get_append_of_hasKey_false _ _ _ (hdropK A), Row.get,
        if_neg hBAp, Row.get, if_pos rfl, hget, fieldGet_pair_fst]
    · rw [hrw, Row.get_append_of_hasKey_false _ _ _ (hdropK B), Row.get,
        if_pos rfl, hget, fieldGet_pair_snd _ _ _ _ hAB]

/-- The output-type-map fold never introduces an entry for a column absent
from both its accumulator and its entries. -/
theorem outFold_no_c (ut : TypeMap) (c : String) :
    ∀ es : TypeMap, (∀ e ∈ es, ¬ e.1 = c) →
    ∀ om : TypeMap, (∀ e ∈ om, ¬ e.1 = c) →
      ∀ e ∈ es.foldl (unionOutStep ut) om, ¬ e.1 = c := by
  intro es
  induction es with
  | nil =>
    intro _ om hom
    exact hom
  | cons e rest ih =>
    intro h om hom
    rw [List.foldl_cons]
    apply ih (fun x hx => h x (List.mem_cons_of_mem _ hx))
    intro e' he'
    rw [unionOutStep] at he'
    split at he'
    · exact hom e' he'
    · split at he'
      · rcases List.mem_append.mp he' with h2 | h2
        · exact hom e' h2
        · rcases List.mem_singleton.mp h2 with rfl
          exact h e (List.mem_cons_self _ _)
      · rcases List.mem_append.mp he' with h2 | h2
        · exact hom e' h2
        · rcases List.mem_singleton.mp h2 with rfl
          exact h e' (List.mem_cons_self _ _)

/-- The output-type-map fold preserves a present entry. -/
theorem outFold_preserve_some (ut : TypeMap) (c : String) (M : RDFNodeType) :
    ∀ es : TypeMap, ∀ om : TypeMap, TypeMap.get om c = some M →
      TypeMap.get (es.foldl (unionOutStep ut) om) c = some M := by
  intro es
  induction es with
  | nil =>
    intro om h
    exact h
  | cons e rest ih =>
    intro om h
    rw [List.foldl_cons]
    apply ih
    rw [unionOutStep]
    split
    · exact h
    · split
      · exact TypeMap.get_append_of_some _ h
      · exact TypeMap.get_append_of_some _ h

/-- The output type map of `union` carries the reconciled type of a column
first seen, reconciled, on the left side. -/
theorem unionOutMap_get_tracked (c : String) (Ar M : RDFNodeType)
    (ld rd ut : TypeMap) (pre post : TypeMap)
    (hld : ld = pre ++ (c, Ar) :: post) (hpre : ∀ e ∈ pre, ¬ e.1 = c)
    (hut : TypeMap.get ut c = some M) :
    TypeMap.get (unionOutMap ld rd ut) c = some M := by
  rw [unionOutMap, hld, List.append_assoc, List.cons_append,
    List.foldl_append, List.foldl_cons]
  have hom1 : ∀ e ∈ pre.foldl (unionOutStep ut) [], ¬ e.1 = c :=
    outFold_no_c ut c pre hpre [] (by intro e he; cases he)
  have hck : (pre.foldl (unionOutStep ut) []).containsKey c = false := by
    rw [TypeMap.containsKey, List.any_eq_false]
    intro p hp
    simpa using hom1 p hp
  apply outFold_preserve_some
  rw [unionOutStep]
  rw [if_neg (by rw [hck]; exact Bool.false_ne_true)]
  simp only [hut]
  rw [TypeMap.get_append_of_none]
  · rw [TypeMap.get, if_pos rfl]
  · apply TypeMap.get_eq_none_of_not_mem
    intro hm
    obtain ⟨e, he, he1⟩ := List.mem_map.mp hm
    exact hom1 e he he1

/-- The tracked column of one row through convert-then-explode, with
arbitrary tracked-class-keeping interference before, between and after: the
scalar value lands in the type's qualified sub-column, the column itself
disappears, and no other qualified sub-column appears. -/
theorem explodePhase_row (c : String) (hsfc : sepFree c = true)
    (Z : BaseRDFNodeType) {g0 g1 g2 g3 : Row → Row}
    (hk0 : keepsTracked g0 c) (hk1 : keepsTracked g1 c)
    (hk2 : keepsTracked g2 c) (hk3 : keepsTracked g3 c)
    (r : Row) (hr1 : ∀ p ∈ r, sepFree p.1 = true)
    (hr2 : (Row.get r c).isScalar = true) :
    Row.get (g3 (explodeRow c [Z]
        (g2 (g1 (convRow c Z.as_rdf_node_type (g0 r)))))) (prefixedName c Z)
      = Cell.scalar ((Row.get r c).asScalar) ∧
    Row.hasKey (g3 (explodeRow c [Z]
        (g2 (g1 (convRow c Z.as_rdf_node_type (g0 r)))))) c = false ∧
    ∀ t, ¬ t = Z → Row.hasKey (g3 (explodeRow c [Z]
        (g2 (g1 (convRow c Z.as_rdf_node_type (g0 r))))))
      (prefixedName c t) = false := by
  have hpk0 : ∀ t, Row.hasKey r (prefixedName c t) = false := fun t =>
    Row.hasKey_eq_false_of_all_ne
      (fun p hp => sepFree_ne_prefixedName (hr1 p hp) c t)
  have hg0c : Row.get (g0 r) c = Row.get r c := (hk0.1 r).1
  have hg0k : ∀ t, Row.hasKey (g0 r) (prefixedName c t) = false :=
    fun t => ((hk0.2 t) r).2.trans (hpk0 t)
  have hs0 : (Row.get (g0 r) c).isScalar = true := by
    rw [hg0c]
    exact hr2
  obtain ⟨hcv, hck⟩ := convRow_c_scalar c hsfc Z (g0 r) hs0
  have h1c : Row.get (g1 (convRow c Z.as_rdf_node_type (g0 r))) c =
      Cell.multi [(Z, (Row.get r c).asScalar)] := by
    rw [(hk1.1 _).1, hcv, hg0c]
  have h1k : ∀ t, Row.hasKey (g1 (convRow c Z.as_rdf_node_type (g0 r)))
      (prefixedName c t) = false := fun t => by
    rw [((hk1.2 t) _).2, hck t, hg0k t]
  have h2c : Row.get (g2 (g1 (convRow c Z.as_rdf_node_type (g0 r)))) c =
      Cell.multi [(Z, (Row.get r c).asScalar)] := (hk2.1 _).1.trans h1c
  have h2k : ∀ t, Row.hasKey (g2 (g1 (convRow c Z.as_rdf_node_type (g0 r))))
      (prefixedName c t) = false := fun t => ((hk2.2 t) _).2.trans (h1k t)
  obtain ⟨x1, x2, x3⟩ := explodeRow_c_single c hsfc Z
    (g2 (g1 (convRow c Z.as_rdf_node_type (g0 r))))
    ((Row.get r c).asScalar) h2c h2k
  refine ⟨?_, ?_, ?_⟩
  · rw [((hk3.2 Z) _).1, x1]
  · rw [(hk3.1 _).2, x2]
  · intro t ht
    rw [((hk3.2 t) _).2, x3 t ht]

/-- The tracked column of one row through the implode stage, with arbitrary
tracked-class-keeping interference before and after: the multitype struct is
rebuilt from the two sub-columns and all qualified sub-columns disappear. -/
theorem implodePhase_row (c : String) (hsfc : sepFree c = true)
    (A B : BaseRDFNodeType) {gI1 gI2 : Row → Row}
    (hkI1 : keepsTracked gI1 c) (hkI2 : keepsTracked gI2 c)
    (y : Row) (xA xB : Cell)
    (ha : Row.get y (prefixedName c A) = xA)
    (ha2 : Row.get y (prefixedName c B) = xB)
    (hb : Row.hasKey y c = false)
    (hc2 : ∀ t, ¬ t = A → ¬ t = B →
      Row.hasKey y (prefixedName c t) = false) :
    Row.get (gI2 (implodeRow c [A, B]
        [prefixedName c A, prefixedName c B] (gI1 y))) c =
      Cell.multi [(A, xA.asScalar), (B, xB.asScalar)] ∧
    ∀ t, Row.hasKey (gI2 (implodeRow c [A, B]
        [prefixedName c A, prefixedName c B] (gI1 y)))
      (prefixedName c t) = false := by
  have i1 : Row.get (gI1 y) (prefixedName c A) = xA :=
    ((hkI1.2 A) y).1.trans ha
  have i1b : Row.get (gI1 y) (prefixedName c B) = xB :=
    ((hkI1.2 B) y).1.trans ha2
  have i2 : Row.hasKey (gI1 y) c = false := ((hkI1.1) y).2.trans hb
  have i3 : ∀ t, ¬ t = A → ¬ t = B →
      Row.hasKey (gI1 y) (prefixedName c t) = false :=
    fun t h1 h2 => ((hkI1.2 t) y).2.trans (hc2 t h1 h2)
  obtain ⟨j1, j2⟩ := implodeRow_c_pair c hsfc A B (gI1 y) i2 i3
  constructor
  · rw [((hkI2.1) _).1, j1, i1, i1b]
  · intro t
    rw [((hkI2.2 t) _).2, j2 t]

/-- Full analysis of `union`'s pipeline on a shared column of two distinct
single base types, for arbitrary relations: the output type map records the
sorted two-constituent multitype, the output rows expose each side's
original scalar under its own type's sub-field and null under the other's,
and re-exploding the output column by the recorded multitype reads the
original values back with nulls in the other side's rows. -/
theorem unionPipeline_facts
    (lm rm : DF) (ld rd : TypeMap) (c : String) (A B : BaseRDFNodeType)
    (hA : TypeMap.get ld c = some A.as_rdf_node_type)
    (hB : TypeMap.get rd c = some B.as_rdf_node_type)
    (hAB : ¬ A = B)
    (hndL : ld.keys.Nodup) (hndR : rd.keys.Nodup)
    (hsfL : ∀ k ∈ ld.keys, sepFree k = true)
    (hsfR : ∀ k ∈ rd.keys, sepFree k = true)
    (hrowL : ∀ r ∈ lm.rows,
      (∀ p ∈ r, sepFree p.1 = true) ∧ (Row.get r c).isScalar = true)
    (hrowR : ∀ r ∈ rm.rows,
      (∀ p ∈ r, sepFree p.1 = true) ∧ (Row.get r c).isScalar = true)
    (st : UnionState)
    (hst : st = ld.foldl (unionStep rd) ⟨lm, rm, [], [], []⟩)
    (lnmF : TypeMap)
    (hlnm : lnmF = addExistingMultitypes st.left_new_multitypes ld)
    (rnmF : TypeMap)
    (hrnm : rnmF = addExistingMultitypes st.right_new_multitypes rd)
    (lex : DF × ExplodedMap)
    (hlex : lex = explode_multicols st.left_mappings lnmF)
    (rex : DF × ExplodedMap)
    (hrex : rex = explode_multicols st.right_mappings rnmF)
    (em : ExplodedMap) (hem : em = mergeExploded lex.2 rex.2)
    (outDF : DF)
    (hout : outDF = implode_multicolumns (concat_lf_diagonal lex.1 rex.1) em)
    (outTM : TypeMap) (houtTM : outTM = unionOutMap ld rd st.updated_types) :
    TypeMap.get outTM c =
      some (.MultiType (sortBaseTypes [A, B])) ∧
    outDF.rows.map (fun r => Row.get r c) =
      lm.rows.map (fun r =>
        Cell.multi [(A, (Row.get r c).asScalar), (B, SVal.null)]) ++
      rm.rows.map (fun r =>
        Cell.multi [(A, SVal.null), (B, (Row.get r c).asScalar)]) ∧
    (explode_multicols outDF
        [(c, .MultiType (sortBaseTypes [A, B]))]).1.rows.map
        (fun r => Row.get r (prefixedName c A)) =
      lm.rows.map (fun r => Cell.scalar (Row.get r c).asScalar) ++
      rm.rows.map (fun _ => Cell.scalar SVal.null) ∧
    (explode_multicols outDF
        [(c, .MultiType (sortBaseTypes [A, B]))]).1.rows.map
        (fun r => Row.get r (prefixedName c B)) =
      lm.rows.map (fun _ => Cell.scalar SVal.null) ++
      rm.rows.map (fun r => Cell.scalar (Row.get r c).asScalar) := by
  have hsfc : sepFree c = true := hsfL c (TypeMap.mem_keys_of_get hA)
  have hABr : ¬ A.as_rdf_node_type = B.as_rdf_node_type :=
    fun e => hAB (as_rdf_node_type_inj e)
  have hBA : ¬ B = A := fun e => hAB e.symm
  obtain ⟨preL, postL, hldeq, hpreL, hpostL⟩ := TypeMap.get_split hndL hA
  obtain ⟨preR, postR, hrdeq, hpreR, hpostR⟩ := TypeMap.get_split hndR hB
  have hkeysL : ∀ e ∈ ld, sepFree e.1 = true :=
    fun e he => hsfL e.1 (List.mem_map_of_mem _ he)
  have hkeysR : ∀ e ∈ rd, sepFree e.1 = true :=
    fun e he => hsfR e.1 (List.mem_map_of_mem _ he)
  have hcondPreL : ∀ e ∈ preL, ¬ e.1 = c ∧ sepFree e.1 = true :=
    fun e he => ⟨hpreL e he,
      hkeysL e (by rw [hldeq]; exact List.mem_append_left _ he)⟩
  have hcondPostL : ∀ e ∈ postL, ¬ e.1 = c ∧ sepFree e.1 = true :=
    fun e he => ⟨hpostL e he,
      hkeysL e (by
        rw [hldeq]
        exact List.mem_append_right _ (List.mem_cons_of_mem _ he))⟩
  have hncL : ∀ e ∈ ld, ∀ ts, e.1 = c → ¬ e.2 = .MultiType ts := by
    intro e he ts h1 h2
    rw [hldeq] at he
    rcases List.mem_append.mp he with h3 | h3
    · exact hpreL e h3 h1
    · rcases List.mem_cons.mp h3 with rfl | h4
      · exact as_rdf_ne_MultiType A ts h2
      · exact hpostL e h4 h1
  have hncR : ∀ e ∈ rd, ∀ ts, e.1 = c → ¬ e.2 = .MultiType ts := by
    intro e he ts h1 h2
    rw [hrdeq] at he
    rcases List.mem_append.mp he with h3 | h3
    · exact hpreR e h3 h1
    · rcases List.mem_cons.mp h3 with rfl | h4
      · exact as_rdf_ne_MultiType B ts h2
      · exact hpostR e h4 h1
  -- the reconciliation loop, split at the tracked column
  obtain ⟨st1, hst1⟩ :
      ∃ x, x = preL.foldl (unionStep rd) ⟨lm, rm, [], [], []⟩ := ⟨_, rfl⟩
  obtain ⟨X2, hX2⟩ :
      ∃ x, x = unionStep rd st1 (c, A.as_rdf_node_type) := ⟨_, rfl⟩
  have hstEq : st = postL.foldl (unionStep rd) X2 := by
    rw [hst, hldeq, List.foldl_append, List.foldl_cons, ← hst1, ← hX2]
  obtain ⟨gl1, gr1, hL1, hR1, hkl1, hkr1, hut1, hln1, hrn1⟩ :=
    unionFold_frame rd c preL hcondPreL ⟨lm, rm, [], [], []⟩
  rw [← hst1] at hL1 hR1 hut1 hln1 hrn1
  obtain ⟨gl3, gr3, hL3, hR3, hkl3, hkr3, hut3, hln3, hrn3⟩ :=
    unionFold_frame rd c postL hcondPostL X2
  rw [← hstEq] at hL3 hR3 hut3 hln3 hrn3
  have hL1' : st1.left_mappings.rows = lm.rows.map gl1 := hL1
  have hR1' : st1.right_mappings.rows = rm.rows.map gr1 := hR1
  have hX2v : X2 =
      { st1 with
          left_mappings :=
            convert_lf_col_to_multitype st1.left_mappings c
              A.as_rdf_node_type
          right_mappings :=
            convert_lf_col_to_multitype st1.right_mappings c
              B.as_rdf_node_type
          left_new_multitypes :=
            st1.left_new_multitypes.insert c (.MultiType [A])
          right_new_multitypes :=
            st1.right_new_multitypes.insert c (.MultiType [B])
          updated_types :=
            st1.updated_types.insert c
              (.MultiType (sortBaseTypes [A, B])) } := by
    rw [hX2]
    exact unionStep_base_base rd c A B hB hABr st1
  have hX2l : X2.left_mappings.rows =
      st1.left_mappings.rows.map (convRow c A.as_rdf_node_type) := by
    rw [hX2v]
    rfl
  have hX2r : X2.right_mappings.rows =
      st1.right_mappings.rows.map (convRow c B.as_rdf_node_type) := by
    rw [hX2v]
    rfl
  have hX2ut : X2.updated_types =
      TypeMap.insert st1.updated_types c
        (.MultiType (sortBaseTypes [A, B])) := by
    rw [hX2v]
  have hX2ln : X2.left_new_multitypes =
      TypeMap.insert st1.left_new_multitypes c (.MultiType [A]) := by
    rw [hX2v]
  have hX2rn : X2.right_new_multitypes =
      TypeMap.insert st1.right_new_multitypes c (.MultiType [B]) := by
    rw [hX2v]
  have hstL : st.left_mappings.rows = lm.rows.map
      (fun r => gl3 (convRow c A.as_rdf_node_type (gl1 r))) := by
    rw [hL3, hX2l, hL1', List.map_map, List.map_map]
    rfl
  have hstR : st.right_mappings.rows = rm.rows.map
      (fun r => gr3 (convRow c B.as_rdf_node_type (gr1 r))) := by
    rw [hR3, hX2r, hR1', List.map_map, List.map_map]
    rfl
  have hut_st : TypeMap.get st.updated_types c =
      some (.MultiType (sortBaseTypes [A, B])) := by
    rw [hut3.1, hX2ut, TypeMap.get_insert_self]
  have hln_st_get : TypeMap.get st.left_new_multitypes c =
      some (.MultiType [A]) := by
    rw [hln3.1, hX2ln, TypeMap.get_insert_self]
  have hrn_st_get : TypeMap.get st.right_new_multitypes c =
      some (.MultiType [B]) := by
    rw [hrn3.1, hX2rn, TypeMap.get_insert_self]
  have hln1_nodup : st1.left_new_multitypes.keys.Nodup :=
    hln1.2.1 List.nodup_nil
  have hrn1_nodup : st1.right_new_multitypes.keys.Nodup :=
    hrn1.2.1 List.nodup_nil
  have hln1_sf : ∀ k ∈ st1.left_new_multitypes.keys, sepFree k = true :=
    hln1.2.2 (fun k hk => absurd hk (List.not_mem_nil k))
  have hrn1_sf : ∀ k ∈ st1.right_new_multitypes.keys, sepFree k = true :=
    hrn1.2.2 (fun k hk => absurd hk (List.not_mem_nil k))
  have hln_st_nodup : st.left_new_multitypes.keys.Nodup :=
    hln3.2.1 (by rw [hX2ln]; exact TypeMap.nodup_keys_insert hln1_nodup)
  have hrn_st_nodup : st.right_new_multitypes.keys.Nodup :=
    hrn3.2.1 (by rw [hX2rn]; exact TypeMap.nodup_keys_insert hrn1_nodup)
  have hln_st_sf : ∀ k ∈ st.left_new_multitypes.keys, sepFree k = true :=
    hln3.2.2 (by
      intro k hk
      rw [hX2ln] at hk
      rcases TypeMap.mem_keys_insert hk with h2 | h2
      · exact hln1_sf k h2
      · subst h2
        exact hsfc)
  have hrn_st_sf : ∀ k ∈ st.right_new_multitypes.keys, sepFree k = true :=
    hrn3.2.2 (by
      intro k hk
      rw [hX2rn] at hk
      rcases TypeMap.mem_keys_insert hk with h2 | h2
      · exact hrn1_sf k h2
      · subst h2
        exact hsfc)
  -- the pre-existing-multitype collection
  have hlnmGet : TypeMap.get lnmF c = some (.MultiType [A]) := by
    rw [hlnm, (addExisting_evolved c ld hkeysL hncL st.left_new_multitypes).1,
      hln_st_get]
  have hrnmGet : TypeMap.get rnmF c = some (.MultiType [B]) := by
    rw [hrnm, (addExisting_evolved c rd hkeysR hncR st.right_new_multitypes).1,
      hrn_st_get]
  have hlnmNodup : lnmF.keys.Nodup := by
    rw [hlnm]
    exact (addExisting_evolved c ld hkeysL hncL _).2.1 hln_st_nodup
  have hrnmNodup : rnmF.keys.Nodup := by
    rw [hrnm]
    exact (addExisting_evolved c rd hkeysR hncR _).2.1 hrn_st_nodup
  have hlnmSF : ∀ k ∈ lnmF.keys, sepFree k = true := by
    rw [hlnm]
    exact (addExisting_evolved c ld hkeysL hncL _).2.2 hln_st_sf
  have hrnmSF : ∀ k ∈ rnmF.keys, sepFree k = true := by
    rw [hrnm]
    exact (addExisting_evolved c rd hkeysR hncR _).2.2 hrn_st_sf
  -- the explode stage, split at the tracked column
  obtain ⟨preE, postE, hlnmSplit, hpreE, hpostE⟩ :=
    TypeMap.get_split hlnmNodup hlnmGet
  obtain ⟨preF, postF, hrnmSplit, hpreF, hpostF⟩ :=
    TypeMap.get_split hrnmNodup hrnmGet
  have hcondPreE : ∀ e ∈ preE, ¬ e.1 = c ∧ sepFree e.1 = true :=
    fun e he => ⟨hpreE e he, hlnmSF e.1 (by
      rw [hlnmSplit]
      exact List.mem_map_of_mem _ (List.mem_append_left _ he))⟩
  have hcondPostE : ∀ e ∈ postE, ¬ e.1 = c ∧ sepFree e.1 = true :=
    fun e he => ⟨hpostE e he, hlnmSF e.1 (by
      rw [hlnmSplit]
      exact List.mem_map_of_mem _
        (List.mem_append_right _ (List.mem_cons_of_mem _ he)))⟩
  have hcondPreF : ∀ e ∈ preF, ¬ e.1 = c ∧ sepFree e.1 = true :=
    fun e he => ⟨hpreF e he, hrnmSF e.1 (by
      rw [hrnmSplit]
      exact List.mem_map_of_mem _ (List.mem_append_left _ he))⟩
  have hcondPostF : ∀ e ∈ postF, ¬ e.1 = c ∧ sepFree e.1 = true :=
    fun e he => ⟨hpostF e he, hrnmSF e.1 (by
      rw [hrnmSplit]
      exact List.mem_map_of_mem _
        (List.mem_append_right _ (List.mem_cons_of_mem _ he)))⟩
  obtain ⟨gE1, hgE1, hkE1⟩ :=
    explodeFold_frame c hsfc preE hcondPreE (st.left_mappings, [])
  obtain ⟨accE, haccE⟩ :
      ∃ x, x = preE.foldl explodeStep
        (st.left_mappings, ([] : ExplodedMap)) := ⟨_, rfl⟩
  rw [← haccE] at hgE1
  have hgE1' : accE.1.rows = st.left_mappings.rows.map gE1 := hgE1
  obtain ⟨gE2, hgE2, hkE2⟩ := explodeFold_frame c hsfc postE hcondPostE
    (explodeStep accE (c, .MultiType [A]))
  have hstepE : (explodeStep accE (c, RDFNodeType.MultiType [A])).1.rows =
      accE.1.rows.map (explodeRow c [A]) := rfl
  have hlexRows : lex.1.rows = lm.rows.map (fun r =>
      gE2 (explodeRow c [A]
        (gE1 (gl3 (convRow c A.as_rdf_node_type (gl1 r)))))) := by
    rw [hlex, explode_multicols, hlnmSplit, List.foldl_append,
      List.foldl_cons, ← haccE, hgE2, hstepE, hgE1', hstL,
      List.map_map, List.map_map, List.map_map]
    rfl
  obtain ⟨gF1, hgF1, hkF1⟩ :=
    explodeFold_frame c hsfc preF hcondPreF (st.right_mappings, [])
  obtain ⟨accF, haccF⟩ :
      ∃ x, x = preF.foldl explodeStep
        (st.right_mappings, ([] : ExplodedMap)) := ⟨_, rfl⟩
  rw [← haccF] at hgF1
  have hgF1' : accF.1.rows = st.right_mappings.rows.map gF1 := hgF1
  obtain ⟨gF2, hgF2, hkF2⟩ := explodeFold_frame c hsfc postF hcondPostF
    (explodeStep accF (c, .MultiType [B]))
  have hstepF : (explodeStep accF (c, RDFNodeType.MultiType [B])).1.rows =
      accF.1.rows.map (explodeRow c [B]) := rfl
  have hrexRows : rex.1.rows = rm.rows.map (fun r =>
      gF2 (explodeRow c [B]
        (gF1 (gr3 (convRow c B.as_rdf_node_type (gr1 r)))))) := by
    rw [hrex, explode_multicols, hrnmSplit, List.foldl_append,
      List.foldl_cons, ← haccF, hgF2, hstepF, hgF1', hstR,
      List.map_map, List.map_map, List.map_map]
    rfl
  -- the recorded explode maps
  have hlem : lex.2 = preE.filterMap recOf ++
      (c, ([A], [prefixedName c A])) :: postE.filterMap recOf := by
    have h0 : lex.2 = lnmF.filterMap recOf := by
      rw [hlex, explode_multicols]
      exact explodeFold_em lnmF (st.left_mappings, [])
    rw [h0, hlnmSplit, List.filterMap_append, List.filterMap_cons]
    rfl
  have hrem : rex.2 = preF.filterMap recOf ++
      (c, ([B], [prefixedName c B])) :: postF.filterMap recOf := by
    have h0 : rex.2 = rnmF.filterMap recOf := by
      rw [hrex, explode_multicols]
      exact explodeFold_em rnmF (st.right_mappings, [])
    rw [h0, hrnmSplit, List.filterMap_append, List.filterMap_cons]
    rfl
  -- the merge stage
  have condRpre : ∀ e ∈ preF.filterMap recOf,
      ¬ e.1 = c ∧ entryPrefOk e :=
    fun e he => ⟨(filterMap_recOf_ok c hcondPreF e he).1.1,
      (filterMap_recOf_ok c hcondPreF e he).2⟩
  have condRpost : ∀ e ∈ postF.filterMap recOf,
      ¬ e.1 = c ∧ entryPrefOk e :=
    fun e he => ⟨(filterMap_recOf_ok c hcondPostF e he).1.1,
      (filterMap_recOf_ok c hcondPostF e he).2⟩
  have okLpre : ∀ e ∈ preE.filterMap recOf, emEntryOk c e :=
    fun e he => (filterMap_recOf_ok c hcondPreE e he).1
  have okLpost : ∀ e ∈ postE.filterMap recOf, emEntryOk c e :=
    fun e he => (filterMap_recOf_ok c hcondPostE e he).1
  obtain ⟨pre2, post2, hm1, hp2, hq2⟩ :=
    mergeFold_no_c c (preF.filterMap recOf) condRpre
      (preE.filterMap recOf) (postE.filterMap recOf)
      ([A], [prefixedName c A]) okLpre okLpost
  have hstepM : (pre2 ++ (c, ([A], [prefixedName c A])) :: post2).map
      (mergeEntryUpd (c, ([B], [prefixedName c B]))) =
      pre2 ++ (c, ([A, B], [prefixedName c A, prefixedName c B])) ::
        post2 :=
    mergeStep_c c A B hBA pre2 post2
      (fun e he => (hp2 e he).1) (fun e he => (hq2 e he).1)
  obtain ⟨pre3, post3, hm2, hp3, hq3⟩ :=
    mergeFold_no_c c (postF.filterMap recOf) condRpost pre2 post2
      ([A, B], [prefixedName c A, prefixedName c B]) hp2 hq2
  have hemEq : em = pre3 ++
      (c, ([A, B], [prefixedName c A, prefixedName c B])) :: post3 := by
    rw [hem, mergeExploded, hlem, hrem, List.foldl_append,
      List.foldl_cons, hm1, hstepM, hm2]
  -- the implode stage
  obtain ⟨gI1, hgI1, hkI1⟩ :=
    implodeFold_frame c hsfc pre3 hp3 (concat_lf_diagonal lex.1 rex.1)
  obtain ⟨accI, haccI⟩ :
      ∃ x, x = pre3.foldl implodeStep (concat_lf_diagonal lex.1 rex.1) :=
    ⟨_, rfl⟩
  rw [← haccI] at hgI1
  obtain ⟨gI2, hgI2, hkI2⟩ := implodeFold_frame c hsfc post3 hq3
    (implodeStep accI
      (c, ([A, B], [prefixedName c A, prefixedName c B])))
  have hstepI : (implodeStep accI
      (c, ([A, B], [prefixedName c A, prefixedName c B]))).rows =
      accI.rows.map
        (implodeRow c [A, B] [prefixedName c A, prefixedName c B]) := rfl
  have hconcatRows : (concat_lf_diagonal lex.1 rex.1).rows =
      lex.1.rows ++ rex.1.rows := rfl
  have hOutRows : outDF.rows =
      lm.rows.map (fun r =>
        gI2 (implodeRow c [A, B] [prefixedName c A, prefixedName c B]
          (gI1 (gE2 (explodeRow c [A]
            (gE1 (gl3 (convRow c A.as_rdf_node_type (gl1 r))))))))) ++
      rm.rows.map (fun r =>
        gI2 (implodeRow c [A, B] [prefixedName c A, prefixedName c B]
          (gI1 (gF2 (explodeRow c [B]
            (gF1 (gr3 (convRow c B.as_rdf_node_type (gr1 r))))))))) := by
    rw [hout, implode_multicolumns, hemEq, List.foldl_append,
      List.foldl_cons, ← haccI, hgI2, hstepI, hgI1, hconcatRows,
      hlexRows, hrexRows]
    simp only [List.map_append, List.map_map]
    rfl
  -- per-row facts for the two origins
  have hSL := fun (r : Row) (hr : r ∈ lm.rows) =>
    explodePhase_row c hsfc A hkl1 hkl3 hkE1 hkE2 r
      (hrowL r hr).1 (hrowL r hr).2
  have hSR := fun (r : Row) (hr : r ∈ rm.rows) =>
    explodePhase_row c hsfc B hkr1 hkr3 hkF1 hkF2 r
      (hrowR r hr).1 (hrowR r hr).2
  have hOutL : ∀ r ∈ lm.rows,
      Row.get (gI2 (implodeRow c [A, B]
          [prefixedName c A, prefixedName c B]
          (gI1 (gE2 (explodeRow c [A]
            (gE1 (gl3 (convRow c A.as_rdf_node_type (gl1 r))))))))) c =
        Cell.multi [(A, (Row.get r c).asScalar), (B, SVal.null)] ∧
      ∀ t, Row.hasKey (gI2 (implodeRow c [A, B]
          [prefixedName c A, prefixedName c B]
          (gI1 (gE2 (explodeRow c [A]
            (gE1 (gl3 (convRow c A.as_rdf_node_type (gl1 r)))))))))
        (prefixedName c t) = false := by
    intro r hr
    obtain ⟨ha, hb, hc2⟩ := hSL r hr
    have ha2 : Row.get (gE2 (explodeRow c [A]
        (gE1 (gl3 (convRow c A.as_rdf_node_type (gl1 r))))))
        (prefixedName c B) = Cell.scalar SVal.null :=
      Row.get_of_hasKey_false (hc2 B hBA)
    obtain ⟨j1, j2⟩ := implodePhase_row c hsfc A B hkI1 hkI2 _
      (Cell.scalar ((Row.get r c).asScalar)) (Cell.scalar SVal.null)
      ha ha2 hb (fun t h1 _ => hc2 t h1)
    exact ⟨j1, j2⟩
  have hOutR : ∀ r ∈ rm.rows,
      Row.get (gI2 (implodeRow c [A, B]
          [prefixedName c A, prefixedName c B]
          (gI1 (gF2 (explodeRow c [B]
            (gF1 (gr3 (convRow c B.as_rdf_node_type (gr1 r))))))))) c =
        Cell.multi [(A, SVal.null), (B, (Row.get r c).asScalar)] ∧
      ∀ t, Row.hasKey (gI2 (implodeRow c [A, B]
          [prefixedName c A, prefixedName c B]
          (gI1 (gF2 (explodeRow c [B]
            (gF1 (gr3 (convRow c B.as_rdf_node_type (gr1 r)))))))))
        (prefixedName c t) = false := by
    intro r hr
    obtain ⟨ha, hb, hc2⟩ := hSR r hr
    have ha2 : Row.get (gF2 (explodeRow c [B]
        (gF1 (gr3 (convRow c B.as_rdf_node_type (gr1 r))))))
        (prefixedName c A) = Cell.scalar SVal.null :=
      Row.get_of_hasKey_false (hc2 A hAB)
    obtain ⟨j1, j2⟩ := implodePhase_row c hsfc A B hkI1 hkI2 _
      (Cell.scalar SVal.null) (Cell.scalar ((Row.get r c).asScalar))
      ha2 ha hb (fun t _ h2 => hc2 t h2)
    exact ⟨j1, j2⟩
  -- conclusion 1: the output type map
  refine ⟨?_, ?_, ?_, ?_⟩
  · rw [houtTM]
    exact unionOutMap_get_tracked c A.as_rdf_node_type
      (.MultiType (sortBaseTypes [A, B])) ld rd st.updated_types
      preL postL hldeq hpreL hut_st
  -- conclusion 2: the output rows at the tracked column
  · rw [hOutRows, List.map_append, List.map_map, List.map_map]
    refine congrArg₂ (fun a b => a ++ b) ?_ ?_
    · apply List.map_congr_left
      intro r hr
      exact (hOutL r hr).1
    · apply List.map_congr_left
      intro r hr
      exact (hOutR r hr).1
  -- conclusions 3 and 4: re-exploding the output column
  · have hre : (explode_multicols outDF
        [(c, RDFNodeType.MultiType (sortBaseTypes [A, B]))]).1.rows =
        outDF.rows.map (explodeRow c (sortBaseTypes [A, B])) := rfl
    rw [hre, hOutRows]
    simp only [List.map_append, List.map_map]
    refine congrArg₂ (fun a b => a ++ b) ?_ ?_
    · apply List.map_congr_left
      intro r hr
      exact (explodeRow_reread c hsfc A B hAB (sortBaseTypes [A, B])
        (sortBaseTypes_two A B) _ ((Row.get r c).asScalar) SVal.null
        (hOutL r hr).1 (fun t => (hOutL r hr).2 t)).1
    · apply List.map_congr_left
      intro r hr
      exact (explodeRow_reread c hsfc A B hAB (sortBaseTypes [A, B])
        (sortBaseTypes_two A B) _ SVal.null ((Row.get r c).asScalar)
        (hOutR r hr).1 (fun t => (hOutR r hr).2 t)).1
  · have hre : (explode_multicols outDF
        [(c, RDFNodeType.MultiType (sortBaseTypes [A, B]))]).1.rows =
        outDF.rows.map (explodeRow c (sortBaseTypes [A, B])) := rfl
    rw [hre, hOutRows]
    simp only [List.map_append, List.map_map]
    refine congrArg₂ (fun a b => a ++ b) ?_ ?_
    · apply List.map_congr_left
      intro r hr
      exact (explodeRow_reread c hsfc A B hAB (sortBaseTypes [A, B])
        (sortBaseTypes_two A B) _ ((Row.get r c).asScalar) SVal.null
        (hOutL r hr).1 (fun t => (hOutL r hr).2 t)).2
    · apply List.map_congr_left
      intro r hr
      exact (explodeRow_reread c hsfc A B hAB (sortBaseTypes [A, B])
        (sortBaseTypes_two A B) _ SVal.null ((Row.get r c).asScalar)
        (hOutR r hr).1 (fun t => (hOutR r hr).2 t)).2

/-- C1: for every two relations R1 and R2 where a column `c` is present on
both sides with single base type A on R1 and a different single base type B
on R2 (graph_patterns.rs lines 358-465 with the spec-section-4.4
reconciliation routines), regardless of any other columns — extra, shared,
or multitype: `union(R1,R2)` types `c` as the sorted `MultiType` of {A, B};
every R1-origin output row exposes its original value under A's sub-field
and null under B's sub-field (and symmetrically for R2); and re-exploding
the unioned column by its recorded multitype recovers exactly R1's and R2's
original per-row values in the A- and B-sub-columns, with nulls — never
values — in the other side's rows (no cross-contamination). The hypotheses
are the engine's well-formedness invariants: type-map keys are unique (a
HashMap) and free of the reserved `<>` sub-column qualifier (spec section
4.4), row keys are qualifier-free, and a base-typed column holds scalar
(non-struct) cells. -/
theorem union_type_reconciliation_roundtrip
    (L R : SolutionMappings) (c : String) (A B : BaseRDFNodeType)
    (hA : TypeMap.get L.rdf_node_types c = some A.as_rdf_node_type)
    (hB : TypeMap.get R.rdf_node_types c = some B.as_rdf_node_type)
    (hAB : ¬ A = B)
    (hndL : L.rdf_node_types.keys.Nodup)
    (hndR : R.rdf_node_types.keys.Nodup)
    (hsfL : ∀ k ∈ L.rdf_node_types.keys, sepFree k = true)
    (hsfR : ∀ k ∈ R.rdf_node_types.keys, sepFree k = true)
    (hrowL : ∀ r ∈ L.mappings.rows,
      (∀ p ∈ r, sepFree p.1 = true) ∧ (Row.get r c).isScalar = true)
    (hrowR : ∀ r ∈ R.mappings.rows,
      (∀ p ∈ r, sepFree p.1 = true) ∧ (Row.get r c).isScalar = true) :
    ∃ out, union L R = .ok out ∧
      TypeMap.get out.rdf_node_types c =
        some (.MultiType (sortBaseTypes [A, B])) ∧
      out.mappings.rows.map (fun r => Row.get r c) =
        L.mappings.rows.map (fun r =>
          Cell.multi [(A, (Row.get r c).asScalar), (B, SVal.null)]) ++
        R.mappings.rows.map (fun r =>
          Cell.multi [(A, SVal.null), (B, (Row.get r c).asScalar)]) ∧
      (explode_multicols out.mappings
          [(c, .MultiType (sortBaseTypes [A, B]))]).1.rows.map
          (fun r => Row.get r (prefixedName c A)) =
        L.mappings.rows.map (fun r =>
          Cell.scalar (Row.get r c).asScalar) ++
        R.mappings.rows.map (fun _ => Cell.scalar SVal.null) ∧
      (explode_multicols out.mappings
          [(c, .MultiType (sortBaseTypes [A, B]))]).1.rows.map
          (fun r => Row.get r (prefixedName c B)) =
        L.mappings.rows.map (fun _ => Cell.scalar SVal.null) ++
        R.mappings.rows.map (fun r =>
          Cell.scalar (Row.get r c).asScalar) := by
  obtain ⟨h1, h2, h3, h4⟩ :=
    unionPipeline_facts L.mappings R.mappings L.rdf_node_types
      R.rdf_node_types c A B hA hB hAB hndL hndR hsfL hsfR hrowL hrowR
      _ rfl _ rfl _ rfl _ rfl _ rfl _ rfl _ rfl _ rfl
  exact ⟨⟨_, _⟩, rfl, h1, h2, h3, h4⟩

/-- Witness left input for C1: a relation over two columns, `x` holding the
integers 1 and 2 and an extra string column `y` (spec section 8's scenario
extended with a column only one side carries). -/
def unionLWitnessInput : SolutionMappings :=
  ⟨⟨["x", "y"],
    [[("x", Cell.scalar (SVal.int 1)), ("y", Cell.scalar (SVal.str "p"))],
     [("x", Cell.scalar (SVal.int 2)), ("y", Cell.scalar (SVal.str "q"))]]⟩,
   [("x", (BaseRDFNodeType.Literal xsdInteger).as_rdf_node_type),
    ("y", (BaseRDFNodeType.Literal xsdString).as_rdf_node_type)]⟩

/-- Witness right input for C1: a one-column relation binding `x` to the
strings "a" and "b". -/
def unionRWitnessInput : SolutionMappings :=
  ⟨⟨["x"],
    [[("x", Cell.scalar (SVal.str "a"))],
     [("x", Cell.scalar (SVal.str "b"))]]⟩,
   [("x", (BaseRDFNodeType.Literal xsdString).as_rdf_node_type)]⟩

/-- Witness for C1 at the spec's concrete scenario extended with an extra
left-only column: `x` holds integers [1, 2] on the left and strings
["a", "b"] on the right. -/
theorem union_type_reconciliation_roundtrip_witness :
    ∃ out, union unionLWitnessInput unionRWitnessInput = .ok out ∧
      TypeMap.get out.rdf_node_types "x" =
        some (.MultiType (sortBaseTypes
          [BaseRDFNodeType.Literal xsdInteger,
           BaseRDFNodeType.Literal xsdString])) ∧
      out.mappings.rows.map (fun r => Row.get r "x") =
        unionLWitnessInput.mappings.rows.map (fun r =>
          Cell.multi
            [(BaseRDFNodeType.Literal xsdInteger, (Row.get r "x").asScalar),
             (BaseRDFNodeType.Literal xsdString, SVal.null)]) ++
        unionRWitnessInput.mappings.rows.map (fun r =>
          Cell.multi
            [(BaseRDFNodeType.Literal xsdInteger, SVal.null),
             (BaseRDFNodeType.Literal xsdString, (Row.get r "x").asScalar)]) ∧
      (explode_multicols out.mappings
          [("x", .MultiType (sortBaseTypes
            [BaseRDFNodeType.Literal xsdInteger,
             BaseRDFNodeType.Literal xsdString]))]).1.rows.map
          (fun r => Row.get r
            (prefixedName "x" (BaseRDFNodeType.Literal xsdInteger))) =
        unionLWitnessInput.mappings.rows.map (fun r =>
          Cell.scalar (Row.get r "x").asScalar) ++
        unionRWitnessInput.mappings.rows.map (fun _ =>
          Cell.scalar SVal.null) ∧
      (explode_multicols out.mappings
          [("x", .MultiType (sortBaseTypes
            [BaseRDFNodeType.Literal xsdInteger,
             BaseRDFNodeType.Literal xsdString]))]).1.rows.map
          (fun r => Row.get r
            (prefixedName "x" (BaseRDFNodeType.Literal xsdString))) =
        unionLWitnessInput.mappings.rows.map (fun _ =>
          Cell.scalar SVal.null) ++
        unionRWitnessInput.mappings.rows.map (fun r =>
          Cell.scalar (Row.get r "x").asScalar) :=
  union_type_reconciliation_roundtrip unionLWitnessInput unionRWitnessInput
    "x" (.Literal xsdInteger) (.Literal xsdString)
    (by decide) (by decide) (by decide) (by decide) (by decide)
    (by decide) (by decide) (by decide) (by decide)

/-- Witness for C9 at a concrete relation, one candidate. -/
theorem in_expression_semantics_witness :
    ∃ sm', in_expression dispatchInput "a" ["b"] "c" = .ok sm' ∧
      TypeMap.get sm'.rdf_node_types "c" = some (.Literal xsdBoolean) ∧
      sm'.mappings.rows = dispatchInput.mappings.rows.map (fun r =>
        Row.dropKeys
          (Row.dropKeys (Row.set r "c" (evalExpr r (inFoldSpec "a" ["b"])))
            ["a"])
          ["b"]) ∧
      (["b"] = ([] : List String) →
        ∀ r ∈ sm'.mappings.rows,
          Row.get r "c" = Cell.scalar (.boolean false)) :=
  in_expression_semantics dispatchInput "a" ["b"] "c" (by decide) (by decide)

end QP
